import Mathlib

/-!
# Fernschreiber notification manager

A shallow embedding of `src/notificationmanager.cpp` and a verification of its
notification-group bookkeeping.

Modelling conventions.

* `QVariantMap` containers whose keys are computed at run time (the group map, the
  chat map, the per-group notification map) are `QMap V`: association lists kept in
  strictly increasing key order, as `QMap<QString, QVariant>` keeps them.  Keys are
  compared character by character, which is the order of `QString` on the decimal
  renderings of ids.  `QMap.WF` states the order; every operation preserves it.
* `QVariantMap` records with fixed field names are structures whose fields hold the
  values the source reads through `value("...").toX()`; a missing entry reads as the
  default value of its type, which is what `Inhabited` supplies.  A stored
  notification record always holds the entry `replaces_id`, so it is never the empty
  map, and the test `!notificationInformation.isEmpty()` on a looked-up record is the
  test that the key is present.
* Handles are the `quint32` values of `Notification::replacesId()`; the manager only
  copies and compares them, so they are natural numbers here.  The value 0 is the one
  a `Notification` object holds before `setReplacesId` is called.
* `tr("%1 unread messages")` is taken untranslated.
* The requests sent to the platform are recorded, oldest first, in the ghost field
  `State.requests`; the handle a publish reports is a function of the notification and
  of the requests sent before it (`Collaborators.publish`).
-/

namespace NotificationManager

/-! ## Containers -/

/-- The type `QMap<QString, V>`: an association list ordered by key. -/
abbrev QMap (V : Type) := List (String × V)

namespace QMap

variable {V : Type}

/-- Strict key order of the container. -/
abbrev keyLess (a b : String) : Prop := a.toList < b.toList

/-- Representation invariant of the container: keys strictly increase. -/
abbrev WF (m : QMap V) : Prop := List.Pairwise keyLess (List.map Prod.fst m)

/-- The keys, in container order. -/
abbrev keys (m : QMap V) : List String := List.map Prod.fst m

/-- The call `QMap::values()`: the values in ascending key order. -/
abbrev values (m : QMap V) : List V := List.map Prod.snd m

/-- The call `QMap::size()`. -/
abbrev size (m : QMap V) : Nat := List.length m

/-- The call `QMap::isEmpty()`. -/
abbrev isEmpty (m : QMap V) : Bool := List.isEmpty m

/-- The lookup `QMap::value(key)`, with `none` for an absent key. -/
def value : QMap V → String → Option V
  | [], _ => none
  | (k', v) :: t, k => if k' = k then some v else value t k

/-- The call `QMap::remove(key)`. -/
def remove (m : QMap V) (k : String) : QMap V :=
  List.filter (fun p => p.1 != k) m

/-- The call `QMap::insert(key, value)`: replaces the value of an existing key. -/
def insert : QMap V → String → V → QMap V
  | [], k, v => [(k, v)]
  | (k', v') :: t, k, v =>
    if k.toList < k'.toList then (k, v) :: (k', v') :: t
    else if k = k' then (k, v) :: t
    else (k', v') :: insert t k v

end QMap

/-! ## Qt string helpers -/

/-- The predicate `QChar::isSpace`. -/
def isSpace (c : Char) : Bool :=
  (9 ≤ c.toNat && c.toNat ≤ 13) || c.toNat = 32 || c.toNat = 133 || c.toNat = 160 ||
  c.toNat = 5760 || (8192 ≤ c.toNat && c.toNat ≤ 8202) || c.toNat = 8232 ||
  c.toNat = 8233 || c.toNat = 8239 || c.toNat = 8287 || c.toNat = 12288

/-- The call `QString::trimmed()`. -/
def trimmed (s : String) : String :=
  String.mk ((s.toList.dropWhile isSpace).reverse.dropWhile isSpace).reverse

/-! ## Records -/

/-- The `content` map of a message, handed unread to the short-text renderer. -/
abbrev MessageContent := List (String × String)

/-- The map `notificationInformation["type"]["message"]`, through the fields read. -/
structure MessageMap where
  id : String := ""
  date : Int := 0
  sender_user_id : String := ""
  content : MessageContent := []
  deriving DecidableEq, Repr, Inhabited

/-- One notification record: `id`, the message and the handle `replaces_id`;
`rest` stands for the entries the manager carries along without reading. -/
structure NotificationInformation where
  id : String := ""
  replaces_id : Nat := 0
  message : MessageMap := {}
  rest : List (String × String) := []
  deriving DecidableEq, Repr, Inhabited

/-- One entry of `chatMap`: title, `type["@type"]` and `type["is_channel"]`. -/
structure ChatInformation where
  title : String := ""
  chatType : String := ""
  is_channel : Bool := false
  deriving DecidableEq, Repr, Inhabited

/-- The answer of `TDLibWrapper::getUserInformation`, through the fields read. -/
structure UserInformation where
  first_name : String := ""
  last_name : String := ""
  deriving DecidableEq, Repr, Inhabited

/-- One entry of `notificationGroups`. -/
structure NotificationGroup where
  type : String := ""
  chat_id : String := ""
  notification_group_id : String := ""
  notification_settings_chat_id : String := ""
  is_silent : Bool := false
  total_count : Int := 0
  notifications : QMap NotificationInformation := []
  deriving DecidableEq, Repr, Inhabited

/-- The argument of `handleUpdateNotificationGroup`. -/
structure NotificationGroupUpdate where
  notification_group_id : String := ""
  chat_id : String := ""
  type : String := ""
  notification_settings_chat_id : String := ""
  is_silent : Bool := false
  total_count : Int := 0
  removed_notification_ids : List String := []
  added_notifications : List NotificationInformation := []
  deriving DecidableEq, Repr, Inhabited

/-- Modelled from the spec: the enumeration `AppSettings::NotificationFeedback` is
declared in `appsettings.h`, which is not part of the sources at hand.  The manager
names its members `NotificationFeedbackNone` and `NotificationFeedbackAll`; the spec
calls them the preferences "none" and "all".  Every further member is `other`. -/
inductive NotificationFeedback where
  | NotificationFeedbackAll
  | NotificationFeedbackNone
  | other (n : Nat)
  deriving DecidableEq, Repr, Inhabited

/-! ## Platform objects -/

/-- The value built by `Notification::remoteAction`. -/
structure RemoteAction where
  name : String
  displayName : String
  service : String
  path : String
  iface : String
  method : String
  arguments : List String
  deriving DecidableEq, Repr, Inhabited

/-- A `Notification` object of the platform library, through the properties set. -/
structure NemoNotification where
  appName : String := ""
  appIcon : String := ""
  summary : String := ""
  timestamp : Int := 0
  remoteActions : List RemoteAction := []
  replacesId : Nat := 0
  body : String := ""
  category : String := ""
  deriving DecidableEq, Repr, Inhabited

/-- A request sent to the platform. -/
inductive Action where
  /-- The call `Notification::close()` on an object with the given `replacesId`. -/
  | close (replacesId : Nat)
  /-- The call `Ngf::Client::play(event)`. -/
  | play (event : String)
  /-- The call `Notification::publish()`, with the handle the object holds afterwards. -/
  | publish (notification : NemoNotification) (handle : Nat)
  /-- The call `mceInterface.call(request, pattern)`. -/
  | mceCall (request : String) (pattern : String)
  deriving DecidableEq, Repr, Inhabited

/-- The collaborators the manager is constructed with or links against. -/
structure Collaborators where
  /-- The setting `AppSettings::notificationFeedback()`. -/
  notificationFeedback : NotificationFeedback
  /-- The query `TDLibWrapper::getUserInformation(userId)`. -/
  getUserInformation : String → UserInformation
  /-- The helper `FernschreiberUtils::getMessageShortText(content, myself)`. -/
  getMessageShortText : MessageContent → Bool → String
  /-- The path `SailfishApp::pathTo(file).toLocalFile()`. -/
  pathTo : String → String
  /-- The handle `Notification::replacesId()` holds after `publish()`, which may
  depend on every request the platform has received so far. -/
  publish : List Action → NemoNotification → Nat

/-- The members of the manager, and the ghost record of the requests it has sent. -/
structure State where
  notificationGroups : QMap NotificationGroup := []
  chatMap : QMap ChatInformation := []
  requests : List Action := []
  deriving DecidableEq, Repr, Inhabited

/-! ## The manager -/

/-- The pattern name of `controlLedNotification`. -/
def PATTERN : String := "PatternCommunicationIM"

/-- The activate request of `controlLedNotification`. -/
def ACTIVATE : String := "req_led_pattern_activate"

/-- The deactivate request of `controlLedNotification`. -/
def DEACTIVATE : String := "req_led_pattern_deactivate"

/-- The method `NotificationManager::controlLedNotification`. -/
def controlLedNotification (enabled : Bool) (requests : List Action) : List Action :=
  requests ++ [Action.mceCall (if enabled then ACTIVATE else DEACTIVATE) PATTERN]

/-- The method `NotificationManager::getNotificationText`. -/
def getNotificationText (env : Collaborators) (notificationContent : MessageContent) : String :=
  env.getMessageShortText notificationContent false

/-- The method `NotificationManager::removeNotification`. -/
def removeNotification (notificationInformation : NotificationInformation)
    (requests : List Action) : List Action :=
  requests ++ [Action.close notificationInformation.replaces_id]

/-- The method `NotificationManager::handleChatDiscovered`. -/
def handleChatDiscovered (chatId : String) (chatInformation : ChatInformation)
    (self : State) : State :=
  { self with chatMap := self.chatMap.insert chatId chatInformation }

/-- The method `NotificationManager::sendNotification`: the updated record and the
requests sent so far. -/
def sendNotification (env : Collaborators) (chatMap : QMap ChatInformation) (chatId : String)
    (notificationInformation : NotificationInformation)
    (activeNotifications : QMap NotificationInformation)
    (requests : List Action) : NotificationInformation × List Action :=
  let chatInformation : ChatInformation := (chatMap.value chatId).getD default
  let chatType := chatInformation.chatType
  let addAuthor : Bool :=
    chatType == "chatTypeBasicGroup" ||
      (chatType == "chatTypeSupergroup" && !chatInformation.is_channel)
  let messageMap := notificationInformation.message
  let nemoNotification : NemoNotification :=
    { appName := "Fernschreiber"
      appIcon := env.pathTo "images/fernschreiber-notification.png"
      summary := chatInformation.title
      timestamp := messageMap.date * 1000
      remoteActions :=
        [{ name := "default", displayName := "openMessage",
           service := "de.ygriega.fernschreiber", path := "/de/ygriega/fernschreiber",
           iface := "de.ygriega.fernschreiber", method := "openMessage",
           arguments := [chatId, messageMap.id] }] }
  let feedbackStyle := env.notificationFeedback
  let branch : NemoNotification × Bool :=
    match activeNotifications with
    | [] =>
      let authorInformation := env.getUserInformation messageMap.sender_user_id
      let fullName := authorInformation.first_name ++ " " ++ authorInformation.last_name
      let notificationBody : String := if addAuthor then "" ++ trimmed fullName ++ ": " else ""
      let notificationBody := notificationBody ++ getNotificationText env messageMap.content
      ({ nemoNotification with body := notificationBody },
        feedbackStyle != NotificationFeedback.NotificationFeedbackNone)
    | (_, first) :: _ =>
      ({ nemoNotification with
          replacesId := first.replaces_id
          body := toString (activeNotifications.size + 1) ++ " unread messages" },
        feedbackStyle == NotificationFeedback.NotificationFeedbackAll)
  let needFeedback := branch.2
  let nemoNotification := branch.1
  let nemoNotification :=
    if needFeedback then { nemoNotification with category := "x-nemo.messaging.im" }
    else nemoNotification
  let requests := if needFeedback then requests ++ [Action.play "chat"] else requests
  let handle := env.publish requests nemoNotification
  let requests := requests ++ [Action.publish nemoNotification handle]
  let requests := controlLedNotification true requests
  ({ notificationInformation with replaces_id := handle }, requests)

/-- The loop over `removed_notification_ids` of `handleUpdateNotificationGroup`: a
record found under the id is dismissed and taken out of the map. -/
def removeNotifications : List String → QMap NotificationInformation → List Action →
    QMap NotificationInformation × List Action
  | [], activeNotifications, requests => (activeNotifications, requests)
  | removedNotificationId :: ids, activeNotifications, requests =>
    match activeNotifications.value removedNotificationId with
    | some notificationInformation =>
      removeNotifications ids (activeNotifications.remove removedNotificationId)
        (removeNotification notificationInformation requests)
    | none => removeNotifications ids activeNotifications requests

/-- The loop over `activeNotifications.values()` that hands the new handle to the
other records and files them in `newActiveNotifications`. -/
def reassignHandles : List NotificationInformation → Nat → QMap NotificationInformation →
    QMap NotificationInformation
  | [], _, newActiveNotifications => newActiveNotifications
  | activeNotification :: others, handle, newActiveNotifications =>
    let newActiveNotification := { activeNotification with replaces_id := handle }
    reassignHandles others handle
      (newActiveNotifications.insert newActiveNotification.id newActiveNotification)

/-- The block "If we have deleted notifications, we need to update possibly existing
ones" of `handleUpdateNotificationGroup`. -/
def updateExisting (env : Collaborators) (chatMap : QMap ChatInformation) (chatId : String)
    (removedNotificationIds : List String)
    (activeNotifications : QMap NotificationInformation) (requests : List Action) :
    QMap NotificationInformation × List Action :=
  if !removedNotificationIds.isEmpty && !activeNotifications.isEmpty then
    match activeNotifications with
    | [] => (activeNotifications, requests)
    | (_, firstActiveNotification) :: _ =>
      let activeNotifications := activeNotifications.remove firstActiveNotification.id
      let sent := sendNotification env chatMap chatId firstActiveNotification
        activeNotifications requests
      let newFirstActiveNotification := sent.1
      let newActiveNotifications :=
        reassignHandles activeNotifications.values newFirstActiveNotification.replaces_id []
      (newActiveNotifications.insert newFirstActiveNotification.id newFirstActiveNotification,
        sent.2)
  else (activeNotifications, requests)

/-- The loop over `added_notifications` of `handleUpdateNotificationGroup`. -/
def addNotifications (env : Collaborators) (chatMap : QMap ChatInformation) (chatId : String) :
    List NotificationInformation → QMap NotificationInformation → List Action →
    QMap NotificationInformation × List Action
  | [], activeNotifications, requests => (activeNotifications, requests)
  | addedNotification :: more, activeNotifications, requests =>
    let sent := sendNotification env chatMap chatId addedNotification activeNotifications
      requests
    let activeNotification := sent.1
    addNotifications env chatMap chatId more
      (activeNotifications.insert activeNotification.id activeNotification) sent.2

/-- The removal part of `handleUpdateNotificationGroup`: the removal loop followed by
the update of the records that remain. -/
def processRemovals (env : Collaborators) (chatMap : QMap ChatInformation) (chatId : String)
    (removedNotificationIds : List String)
    (activeNotifications : QMap NotificationInformation) (requests : List Action) :
    QMap NotificationInformation × List Action :=
  let removed := removeNotifications removedNotificationIds activeNotifications requests
  updateExisting env chatMap chatId removedNotificationIds removed.1 removed.2

/-- The method `NotificationManager::handleUpdateNotificationGroup`. -/
def handleUpdateNotificationGroup (env : Collaborators)
    (notificationGroupUpdate : NotificationGroupUpdate) (self : State) : State :=
  let notificationGroupId := notificationGroupUpdate.notification_group_id
  let notificationGroup : NotificationGroup :=
    (self.notificationGroups.value notificationGroupId).getD default
  let chatId := notificationGroupUpdate.chat_id
  let notificationGroup : NotificationGroup :=
    { notificationGroup with
      type := notificationGroupUpdate.type
      chat_id := chatId
      notification_group_id := notificationGroupId
      notification_settings_chat_id := notificationGroupUpdate.notification_settings_chat_id
      is_silent := notificationGroupUpdate.is_silent
      total_count := notificationGroupUpdate.total_count }
  let afterRemovals := processRemovals env self.chatMap chatId
    notificationGroupUpdate.removed_notification_ids notificationGroup.notifications
    self.requests
  let requests :=
    if afterRemovals.1.isEmpty then controlLedNotification false afterRemovals.2
    else afterRemovals.2
  let afterAdditions := addNotifications env self.chatMap chatId
    notificationGroupUpdate.added_notifications afterRemovals.1 requests
  let notificationGroup := { notificationGroup with notifications := afterAdditions.1 }
  { notificationGroups := self.notificationGroups.insert notificationGroupId notificationGroup
    chatMap := self.chatMap
    requests := afterAdditions.2 }

/-- The notification records the manager tracks for a group. -/
def activeNotificationsOf (self : State) (notificationGroupId : String) :
    QMap NotificationInformation :=
  ((self.notificationGroups.value notificationGroupId).getD default).notifications

/-! ## The specification, sample data and auxiliary notions -/

/-- The author line `P` of the specification: `trim(firstName + " " + lastName) + ": "`
for a basic group or a supergroup that is not a channel, and nothing otherwise, an
unknown chat included. -/
def specAuthorLine (env : Collaborators) (chat : Option ChatInformation)
    (info : NotificationInformation) : String :=
  match chat with
  | none => ""
  | some c =>
    if c.chatType = "chatTypeBasicGroup" ∨
        (c.chatType = "chatTypeSupergroup" ∧ c.is_channel = false) then
      trimmed ((env.getUserInformation info.message.sender_user_id).first_name ++ " " ++
        (env.getUserInformation info.message.sender_user_id).last_name) ++ ": "
    else ""

/-- The single-message body of the specification: author line, then the short text. -/
def specSingleBody (env : Collaborators) (chat : Option ChatInformation)
    (info : NotificationInformation) : String :=
  specAuthorLine env chat info ++ env.getMessageShortText info.message.content false

/-- The aggregate body of the specification. -/
def specAggregateBody (count : Nat) : String :=
  toString count ++ " unread messages"

/-- The body of the specification: single-message form without other pending
notifications, the aggregate count of the others plus one with them. -/
def specBody (env : Collaborators) (chat : Option ChatInformation)
    (info : NotificationInformation) (others : QMap NotificationInformation) : String :=
  if others = [] then specSingleBody env chat info
  else specAggregateBody (others.size + 1)

/-- The replacement request of the specification: none (zero) without other pending
notifications, the handle of the first of the others with them. -/
def specReplaces (others : QMap NotificationInformation) : Nat :=
  match others with
  | [] => 0
  | (_, first) :: _ => first.replaces_id

/-- The feedback rule of the specification: preference "all", or a preference that is
neither "none" nor "all" together with no other pending notification. -/
def specNeedsFeedback (feedback : NotificationFeedback)
    (others : QMap NotificationInformation) : Bool :=
  decide (feedback = NotificationFeedback.NotificationFeedbackAll ∨
    (feedback ≠ NotificationFeedback.NotificationFeedbackNone ∧
      feedback ≠ NotificationFeedback.NotificationFeedbackAll ∧ others = []))

/-- The audio cue requested ahead of a publish. -/
def specCue (feedback : NotificationFeedback) (others : QMap NotificationInformation) :
    List Action :=
  if specNeedsFeedback feedback others then [Action.play "chat"] else []

/-- The platform notification of the specification. -/
def specNotification (env : Collaborators) (chat : Option ChatInformation) (chatId : String)
    (info : NotificationInformation) (others : QMap NotificationInformation) :
    NemoNotification :=
  { appName := "Fernschreiber"
    appIcon := env.pathTo "images/fernschreiber-notification.png"
    summary := (chat.getD default).title
    timestamp := info.message.date * 1000
    remoteActions :=
      [{ name := "default", displayName := "openMessage",
         service := "de.ygriega.fernschreiber", path := "/de/ygriega/fernschreiber",
         iface := "de.ygriega.fernschreiber", method := "openMessage",
         arguments := [chatId, info.message.id] }]
    replacesId := specReplaces others
    body := specBody env chat info others
    category := if specNeedsFeedback env.notificationFeedback others then "x-nemo.messaging.im"
      else "" }

/-- The handle the platform reports for the publish `sendNotification` makes. -/
def specHandle (env : Collaborators) (chat : Option ChatInformation) (chatId : String)
    (info : NotificationInformation) (others : QMap NotificationInformation)
    (requests : List Action) : Nat :=
  env.publish (requests ++ specCue env.notificationFeedback others)
    (specNotification env chat chatId info others)

/-- The requests one call of `sendNotification` sends. -/
def specSent (env : Collaborators) (chat : Option ChatInformation) (chatId : String)
    (info : NotificationInformation) (others : QMap NotificationInformation)
    (requests : List Action) : List Action :=
  specCue env.notificationFeedback others ++
    [Action.publish (specNotification env chat chatId info others)
        (specHandle env chat chatId info others requests),
      Action.mceCall ACTIVATE PATTERN]

/-- Every record is stored under its own `id`. -/
def OwnId (m : QMap NotificationInformation) : Prop :=
  ∀ p ∈ m, p.2.id = p.1

/-- Every record carries the handle `H`. -/
def SharedHandle (m : QMap NotificationInformation) (H : Nat) : Prop :=
  ∀ p ∈ m, p.2.replaces_id = H

instance (m : QMap NotificationInformation) : Decidable (OwnId m) :=
  inferInstanceAs (Decidable (∀ p ∈ m, p.2.id = p.1))

instance (m : QMap NotificationInformation) (H : Nat) : Decidable (SharedHandle m H) :=
  inferInstanceAs (Decidable (∀ p ∈ m, p.2.replaces_id = H))

/-- The records of `m` with their handle replaced by `h`. -/
def withHandle (h : Nat) (m : QMap NotificationInformation) : QMap NotificationInformation :=
  m.map (fun p => (p.1, { p.2 with replaces_id := h }))

/-- The notifications published by a sequence of requests, oldest first. -/
def publishedOf : List Action → List NemoNotification
  | [] => []
  | Action.publish n _ :: rest => n :: publishedOf rest
  | _ :: rest => publishedOf rest

/-- The requests on record once the removals are processed and the LED is switched off
for a group left without notifications. -/
def requestsBeforeAdditions (env : Collaborators) (u : NotificationGroupUpdate) (s : State) :
    List Action :=
  let afterRemovals := processRemovals env s.chatMap u.chat_id u.removed_notification_ids
    (activeNotificationsOf s u.notification_group_id) s.requests
  if afterRemovals.1.isEmpty then controlLedNotification false afterRemovals.2
  else afterRemovals.2

/-- The records of the group once the removals are processed. -/
def activeAfterRemovals (env : Collaborators) (u : NotificationGroupUpdate) (s : State) :
    QMap NotificationInformation :=
  (processRemovals env s.chatMap u.chat_id u.removed_notification_ids
    (activeNotificationsOf s u.notification_group_id) s.requests).1

/-- A platform that honours replacement requests and numbers fresh notifications by the
count of requests received, starting at 100. -/
def samplePublish (log : List Action) (n : NemoNotification) : Nat :=
  if n.replacesId = 0 then log.length + 100 else n.replacesId

/-- Collaborators with a feedback preference that is neither "none" nor "all". -/
def sampleEnv : Collaborators :=
  { notificationFeedback := NotificationFeedback.other 1
    getUserInformation := fun _ => { first_name := "Ann", last_name := "" }
    getMessageShortText := fun c _ => (c.map Prod.snd).foldl (fun a b => a ++ b) ""
    pathTo := fun f => "/usr/share/harbour-fernschreiber/" ++ f
    publish := samplePublish }

/-- The sample collaborators with the feedback preference "all". -/
def sampleEnvAll : Collaborators :=
  { sampleEnv with notificationFeedback := NotificationFeedback.NotificationFeedbackAll }

/-- Notification `A`, published under handle 5. -/
def sampleA : NotificationInformation :=
  { id := "1", replaces_id := 5, message := { id := "m1", content := [("text", "hi")] } }

/-- Notification `B`, published under handle 5. -/
def sampleB : NotificationInformation :=
  { id := "2", replaces_id := 5, message := { id := "m2", content := [("text", "yo")] } }

/-- Notification `C`, published under handle 5. -/
def sampleC : NotificationInformation :=
  { id := "3", replaces_id := 5, message := { id := "m3", content := [("text", "ok")] } }

/-- A notification as the backend delivers it, not yet published. -/
def sampleNew : NotificationInformation :=
  { id := "4", message := { id := "m4", content := [("text", "new")] } }

/-- A second notification as the backend delivers it. -/
def sampleNew2 : NotificationInformation :=
  { id := "5", message := { id := "m5", content := [("text", "newer")] } }

/-- The chat map with one basic group `c`. -/
def sampleChats : QMap ChatInformation :=
  [("c", { title := "T", chatType := "chatTypeBasicGroup" })]

/-- A manager tracking the given records in group `g` of chat `c`. -/
def sampleState (records : QMap NotificationInformation) : State :=
  { notificationGroups :=
      [("g", { chat_id := "c", notification_group_id := "g", notifications := records })]
    chatMap := sampleChats }

/-- An update of group `g` with the given removals and additions. -/
def sampleUpdate (removed : List String) (added : List NotificationInformation) :
    NotificationGroupUpdate :=
  { notification_group_id := "g"
    chat_id := "c"
    removed_notification_ids := removed
    added_notifications := added }

/-- The entry with the smallest key, found by comparing keys and not by position. -/
def smallestKeyEntry {V : Type} : QMap V → Option (String × V)
  | [] => none
  | p :: t =>
    match smallestKeyEntry t with
    | none => some p
    | some q => if q.1.toList < p.1.toList then some q else some p

/-- Every publish in `e` is directly followed by an LED activate request. -/
def PublishThenLed (e : List Action) : Prop :=
  ∀ pre n h post, e = pre ++ Action.publish n h :: post →
    ∃ post', post = Action.mceCall ACTIVATE PATTERN :: post'

/-- The requests `e` hold no LED deactivate request and pair every publish with an LED
activate request. -/
def Orderly (e : List Action) : Prop :=
  Action.mceCall DEACTIVATE PATTERN ∉ e ∧ PublishThenLed e

/-- The records left when the ids of `ids` are taken out of `m`. -/
def remaining (ids : List String) (m : QMap NotificationInformation) :
    QMap NotificationInformation :=
  m.filter (fun p => !ids.contains p.1)

/-- Two records agree in every field except `replaces_id`. -/
def SameButHandle (x y : NotificationInformation) : Prop :=
  x.id = y.id ∧ x.message = y.message ∧ x.rest = y.rest

instance (x y : NotificationInformation) : Decidable (SameButHandle x y) :=
  inferInstanceAs (Decidable (x.id = y.id ∧ x.message = y.message ∧ x.rest = y.rest))

/-- The body the specification gives the added notification `a` that finds `count`
notifications tracked: single-message form for none, "(count+1) unread messages"
otherwise. -/
def specAddedBody (env : Collaborators) (chat : Option ChatInformation)
    (entry : Nat × NotificationInformation) : String :=
  if entry.1 = 0 then specSingleBody env chat entry.2
  else toString (entry.1 + 1) ++ " unread messages"

/-- A platform that honours replacement requests and reports, for a fresh notification,
the number of publishes it has received before. -/
def countingPublish (log : List Action) (n : NemoNotification) : Nat :=
  if n.replacesId = 0 then (publishedOf log).length else n.replacesId

/-- The sample collaborators with the preference "none" and the counting platform. -/
def countingEnv : Collaborators :=
  { sampleEnv with
    notificationFeedback := NotificationFeedback.NotificationFeedbackNone
    publish := countingPublish }

/-! # Verification -/

/-! ## Facts about the container -/

namespace QMap

variable {V : Type}

theorem keyLess_irrefl (a : String) : ¬ keyLess a a := lt_irrefl a.toList

theorem keyLess_trans {a b c : String} (h₁ : keyLess a b) (h₂ : keyLess b c) : keyLess a c :=
  lt_trans h₁ h₂

theorem keyLess_of_not {a b : String} (h₁ : ¬ keyLess a b) (h₂ : a ≠ b) : keyLess b a := by
  have hne : a.toList ≠ b.toList := fun h => h₂ (String.ext h)
  rcases lt_trichotomy a.toList b.toList with h | h | h
  · exact absurd h h₁
  · exact absurd h hne
  · exact h

theorem value_eq_none {m : QMap V} {k : String} : m.value k = none ↔ k ∉ keys m := by
  induction m with
  | nil => simp [value]
  | cons p t ih =>
    obtain ⟨k', v⟩ := p
    by_cases h : k' = k
    · simp [value, h]
    · simp [value, h, ih, Ne.symm h]

theorem mem_of_value {m : QMap V} {k : String} {v : V} (h : m.value k = some v) :
    (k, v) ∈ m := by
  induction m with
  | nil => simp [value] at h
  | cons p t ih =>
    obtain ⟨k', v'⟩ := p
    by_cases hk : k' = k
    · simp [value, hk] at h
      simp [hk, h]
    · simp [value, hk] at h
      exact List.mem_cons_of_mem _ (ih h)

theorem value_of_mem {m : QMap V} (hwf : WF m) {k : String} {v : V} (h : (k, v) ∈ m) :
    m.value k = some v := by
  induction m with
  | nil => simp at h
  | cons p t ih =>
    obtain ⟨k', v'⟩ := p
    simp only [WF, List.map_cons, List.pairwise_cons] at hwf
    rcases List.mem_cons.mp h with h | h
    · cases h
      simp [value]
    · have hk : k' ≠ k := by
        intro e
        subst e
        exact keyLess_irrefl _ (hwf.1 _ (List.mem_map_of_mem Prod.fst h))
      simp [value, hk, ih hwf.2 h]

theorem remove_of_not_mem {m : QMap V} {k : String} (h : k ∉ keys m) : m.remove k = m := by
  unfold remove
  rw [List.filter_eq_self]
  intro p hp
  have : p.1 ≠ k := fun e => h (e ▸ List.mem_map_of_mem Prod.fst hp)
  simpa using this

theorem mem_remove {m : QMap V} {k : String} {p : String × V} :
    p ∈ m.remove k ↔ p ∈ m ∧ p.1 ≠ k := by
  simp [remove]

theorem mem_keys_remove {m : QMap V} {k k' : String} :
    k' ∈ keys (m.remove k) ↔ k' ∈ keys m ∧ k' ≠ k := by
  simp only [keys, List.mem_map, mem_remove]
  constructor
  · rintro ⟨p, ⟨hp, hne⟩, rfl⟩
    exact ⟨⟨p, hp, rfl⟩, hne⟩
  · rintro ⟨⟨p, hp, rfl⟩, hne⟩
    exact ⟨p, ⟨hp, hne⟩, rfl⟩

theorem WF_remove {m : QMap V} (hwf : WF m) (k : String) : WF (m.remove k) := by
  unfold WF remove
  exact hwf.sublist (List.Sublist.map _ (List.filter_sublist _))

theorem WF_filter {m : QMap V} (hwf : WF m) (f : String × V → Bool) : WF (m.filter f) := by
  unfold WF
  exact hwf.sublist (List.Sublist.map _ (List.filter_sublist _))

theorem remove_head {k : String} {v : V} {t : QMap V} (hwf : WF ((k, v) :: t)) :
    remove ((k, v) :: t) k = t := by
  simp only [WF, List.map_cons, List.pairwise_cons] at hwf
  have : k ∉ keys t := fun h => keyLess_irrefl _ (hwf.1 _ h)
  have h₂ : remove ((k, v) :: t) k = remove t k := by simp [remove, List.filter_cons]
  rw [h₂, remove_of_not_mem this]

theorem value_remove_self {m : QMap V} {k : String} : (m.remove k).value k = none := by
  rw [value_eq_none, mem_keys_remove]
  simp

theorem value_remove_ne {m : QMap V} {k k' : String} (h : k' ≠ k) :
    (m.remove k).value k' = m.value k' := by
  induction m with
  | nil => simp [remove, value]
  | cons p t ih =>
    obtain ⟨k₀, v₀⟩ := p
    by_cases h₀ : k₀ = k
    · subst h₀
      have : (remove ((k₀, v₀) :: t) k₀) = remove t k₀ := by simp [remove, List.filter_cons]
      rw [this, ih]
      simp [value, Ne.symm h]
    · have : (remove ((k₀, v₀) :: t) k) = (k₀, v₀) :: remove t k := by
        simp [remove, List.filter_cons, h₀]
      rw [this]
      simp [value, ih]

theorem length_remove {m : QMap V} (hwf : WF m) {k : String} (h : k ∈ keys m) :
    (m.remove k).length + 1 = m.length := by
  induction m with
  | nil => simp at h
  | cons p t ih =>
    obtain ⟨k₀, v₀⟩ := p
    by_cases h₀ : k₀ = k
    · subst h₀
      rw [remove_head hwf]
      simp
    · have hk : k ∈ keys t := by
        simp only [keys, List.map_cons, List.mem_cons] at h
        rcases h with h | h
        · exact absurd h.symm h₀
        · exact h
      simp only [WF, List.map_cons, List.pairwise_cons] at hwf
      have : (remove ((k₀, v₀) :: t) k) = (k₀, v₀) :: remove t k := by
        simp [remove, List.filter_cons, h₀]
      rw [this]
      simp [ih hwf.2 hk]

theorem value_insert_self (m : QMap V) (k : String) (v : V) :
    (m.insert k v).value k = some v := by
  induction m with
  | nil => simp [insert, value]
  | cons p t ih =>
    obtain ⟨k', v'⟩ := p
    unfold insert
    split
    · simp [value]
    · split
      · simp [value]
      · rename_i h₁ h₂
        simp [value, Ne.symm h₂, ih]

theorem value_insert_ne (m : QMap V) {k k' : String} (v : V) (h : k' ≠ k) :
    (m.insert k v).value k' = m.value k' := by
  induction m with
  | nil => simp [insert, value, Ne.symm h]
  | cons p t ih =>
    obtain ⟨k₀, v₀⟩ := p
    unfold insert
    split
    · simp [value, Ne.symm h]
    · split
      · rename_i h₁ h₂
        subst h₂
        simp [value, Ne.symm h]
      · simp [value, ih]

theorem mem_insert {m : QMap V} {k : String} {v : V} {p : String × V}
    (h : p ∈ m.insert k v) : p = (k, v) ∨ p ∈ m := by
  induction m with
  | nil => simpa [insert] using h
  | cons q t ih =>
    obtain ⟨k₀, v₀⟩ := q
    unfold insert at h
    split at h
    · simpa using h
    · split at h
      · rcases List.mem_cons.mp h with h | h
        · exact Or.inl h
        · exact Or.inr (List.mem_cons_of_mem _ h)
      · rcases List.mem_cons.mp h with h | h
        · exact Or.inr (h ▸ List.mem_cons_self _ _)
        · rcases ih h with h | h
          · exact Or.inl h
          · exact Or.inr (List.mem_cons_of_mem _ h)

theorem mem_keys_insert {m : QMap V} {k k' : String} {v : V} :
    k' ∈ keys (m.insert k v) ↔ k' = k ∨ k' ∈ keys m := by
  induction m with
  | nil => simp [insert]
  | cons q t ih =>
    obtain ⟨k₀, v₀⟩ := q
    unfold insert
    split
    · simp
    · split
      · rename_i h₁ h₂
        subst h₂
        simp
      · simp only [keys, List.map_cons, List.mem_cons] at ih ⊢
        rw [ih]
        tauto

theorem length_insert {m : QMap V} {k : String} (v : V) (h : k ∉ keys m) :
    (m.insert k v).length = m.length + 1 := by
  induction m with
  | nil => simp [insert]
  | cons q t ih =>
    obtain ⟨k₀, v₀⟩ := q
    simp only [keys, List.map_cons, List.mem_cons, not_or] at h
    unfold insert
    split
    · simp
    · split
      · rename_i h₁ h₂
        exact absurd h₂ h.1
      · simp [ih h.2]

theorem WF_insert {m : QMap V} (hwf : WF m) (k : String) (v : V) : WF (m.insert k v) := by
  induction m with
  | nil => simp [insert, WF]
  | cons q t ih =>
    obtain ⟨k₀, v₀⟩ := q
    have hwf' := hwf
    simp only [WF, List.map_cons, List.pairwise_cons] at hwf'
    unfold insert
    split
    · rename_i h₁
      simp only [WF, List.map_cons, List.pairwise_cons]
      refine ⟨?_, hwf'⟩
      intro a ha
      rcases List.mem_cons.mp ha with ha | ha
      · exact ha ▸ h₁
      · exact keyLess_trans h₁ (hwf'.1 a ha)
    · split
      · rename_i h₁ h₂
        subst h₂
        simpa [WF] using hwf'
      · rename_i h₁ h₂
        simp only [WF, List.map_cons, List.pairwise_cons]
        refine ⟨?_, ih hwf'.2⟩
        intro a ha
        rcases mem_keys_insert.mp ha with ha | ha
        · exact ha ▸ keyLess_of_not h₁ h₂
        · exact hwf'.1 a ha

theorem insert_of_all_less {m : QMap V} {k : String} (v : V)
    (h : ∀ k' ∈ keys m, keyLess k' k) : m.insert k v = m ++ [(k, v)] := by
  induction m with
  | nil => simp [insert]
  | cons q t ih =>
    obtain ⟨k₀, v₀⟩ := q
    have h₀ : keyLess k₀ k := h k₀ (by simp)
    have h₁ : ¬ keyLess k k₀ := fun hh => keyLess_irrefl _ (keyLess_trans h₀ hh)
    have h₂ : k ≠ k₀ := fun e => keyLess_irrefl k₀ (e ▸ h₀)
    unfold insert
    rw [if_neg h₁, if_neg h₂, ih (fun k' hk' => h k' (List.mem_cons_of_mem _ hk'))]
    simp

theorem insert_of_less_all {m : QMap V} {k : String} (v : V)
    (h : ∀ k' ∈ keys m, keyLess k k') : m.insert k v = (k, v) :: m := by
  cases m with
  | nil => simp [insert]
  | cons q t =>
    obtain ⟨k₀, v₀⟩ := q
    have h₀ : keyLess k k₀ := h k₀ (by simp)
    unfold insert
    rw [if_pos h₀]

end QMap

/-! ## `sendNotification` -/

theorem default_chatType : (default : ChatInformation).chatType = "" := rfl

theorem sendNotification_eq (env : Collaborators) (chatMap : QMap ChatInformation)
    (chatId : String) (info : NotificationInformation)
    (others : QMap NotificationInformation) (requests : List Action) :
    sendNotification env chatMap chatId info others requests =
      ({ info with replaces_id := specHandle env (chatMap.value chatId) chatId info others requests },
        requests ++ specSent env (chatMap.value chatId) chatId info others requests) := by
  cases hfb : env.notificationFeedback <;> cases others <;>
    cases hc : chatMap.value chatId <;>
    simp [sendNotification, specHandle, specSent, specNotification, specCue, specNeedsFeedback,
      specBody, specSingleBody, specAggregateBody, specAuthorLine, specReplaces,
      controlLedNotification, getNotificationText, default_chatType, hfb, hc]

/-! ## The removal loop -/

theorem removeNotifications_fst (ids : List String) (m : QMap NotificationInformation)
    (requests : List Action) :
    (removeNotifications ids m requests).1 = m.filter (fun p => !ids.contains p.1) := by
  induction ids generalizing m requests with
  | nil => simp [removeNotifications]
  | cons r ids ih =>
    unfold removeNotifications
    cases hv : m.value r with
    | some info =>
      simp only [ih, QMap.remove, List.filter_filter]
      apply List.filter_congr
      intro p _
      by_cases hp : p.1 = r <;> simp [hp]
    | none =>
      simp only [ih]
      apply List.filter_congr
      intro p hp
      have hne : p.1 ≠ r := fun e =>
        QMap.value_eq_none.mp hv (e ▸ List.mem_map_of_mem Prod.fst hp)
      simp [hne]

theorem removeNotifications_of_untracked (ids : List String)
    (m : QMap NotificationInformation) (requests : List Action)
    (h : ∀ r ∈ ids, r ∉ QMap.keys m) : removeNotifications ids m requests = (m, requests) := by
  induction ids with
  | nil => simp [removeNotifications]
  | cons r ids ih =>
    unfold removeNotifications
    have hv : m.value r = none := QMap.value_eq_none.mpr (h r (by simp))
    simp only [hv]
    exact ih (fun r' hr' => h r' (List.mem_cons_of_mem _ hr'))

theorem removeNotifications_one (ids : List String) (m : QMap NotificationInformation)
    (requests : List Action) (a : String) (info : NotificationInformation)
    (ha : a ∈ ids) (hv : m.value a = some info)
    (honly : ∀ r ∈ ids, r ∈ QMap.keys m → r = a) :
    removeNotifications ids m requests =
      (m.remove a, requests ++ [Action.close info.replaces_id]) := by
  induction ids with
  | nil => simp at ha
  | cons r ids ih =>
    unfold removeNotifications
    by_cases hr : r = a
    · subst hr
      simp only [hv, removeNotification]
      apply removeNotifications_of_untracked
      intro r' hr' hmem
      have h₁ := QMap.mem_keys_remove.mp hmem
      exact h₁.2 (honly r' (List.mem_cons_of_mem _ hr') h₁.1)
    · have hnone : m.value r = none := by
        rw [QMap.value_eq_none]
        intro hmem
        exact hr (honly r (by simp) hmem)
      simp only [hnone]
      have ha' : a ∈ ids := by
        rcases List.mem_cons.mp ha with h | h
        · exact absurd h.symm hr
        · exact h
      exact ih ha' (fun r' hr' => honly r' (List.mem_cons_of_mem _ hr'))

theorem removeNotifications_snd (ids : List String) (m : QMap NotificationInformation)
    (requests : List Action) :
    ∃ closes, (removeNotifications ids m requests).2 = requests ++ closes ∧
      (∀ c ∈ closes, ∃ p ∈ m, c = Action.close p.2.replaces_id) ∧
      (closes = [] ↔ ∀ r ∈ ids, r ∉ QMap.keys m) := by
  induction ids generalizing m requests with
  | nil => exact ⟨[], by simp [removeNotifications]⟩
  | cons r ids ih =>
    unfold removeNotifications
    cases hv : m.value r with
    | some info =>
      obtain ⟨closes, h₁, h₂, _⟩ := ih (m.remove r) (removeNotification info requests)
      refine ⟨Action.close info.replaces_id :: closes, ?_, ?_, ?_⟩
      · rw [h₁]
        simp [removeNotification]
      · intro c hc
        rcases List.mem_cons.mp hc with hc | hc
        · exact ⟨(r, info), QMap.mem_of_value hv, hc⟩
        · obtain ⟨p, hp, hpc⟩ := h₂ c hc
          exact ⟨p, (QMap.mem_remove.mp hp).1, hpc⟩
      · constructor
        · intro h
          simp at h
        · intro h
          have : r ∈ QMap.keys m := by
            by_contra hn
            rw [QMap.value_eq_none.mpr hn] at hv
            simp at hv
          exact absurd this (h r (by simp))
    | none =>
      obtain ⟨closes, h₁, h₂, h₃⟩ := ih m requests
      refine ⟨closes, h₁, h₂, ?_⟩
      rw [h₃]
      constructor
      · intro h r' hr'
        rcases List.mem_cons.mp hr' with e | e
        · exact e ▸ QMap.value_eq_none.mp hv
        · exact h r' e
      · intro h r' hr'
        exact h r' (List.mem_cons_of_mem _ hr')

/-! ## The update of the remaining records -/

theorem withHandle_keys (h : Nat) (m : QMap NotificationInformation) :
    QMap.keys (withHandle h m) = QMap.keys m := by
  simp [withHandle, QMap.keys, List.map_map, Function.comp_def]

theorem withHandle_length (h : Nat) (m : QMap NotificationInformation) :
    (withHandle h m).length = m.length := by
  simp [withHandle]

theorem withHandle_shared (h : Nat) (m : QMap NotificationInformation) :
    SharedHandle (withHandle h m) h := by
  intro p hp
  simp only [withHandle, List.mem_map] at hp
  obtain ⟨q, _, rfl⟩ := hp
  rfl

theorem withHandle_ownId (h : Nat) {m : QMap NotificationInformation} (hown : OwnId m) :
    OwnId (withHandle h m) := by
  intro p hp
  simp only [withHandle, List.mem_map] at hp
  obtain ⟨q, hq, rfl⟩ := hp
  exact hown q hq

theorem withHandle_WF (h : Nat) {m : QMap NotificationInformation} (hwf : QMap.WF m) :
    QMap.WF (withHandle h m) := by
  unfold QMap.WF
  have := withHandle_keys h m
  simp only [QMap.keys] at this
  rw [this]
  exact hwf

theorem withHandle_value (h : Nat) (m : QMap NotificationInformation) (k : String) :
    (withHandle h m).value k = (m.value k).map (fun v => { v with replaces_id := h }) := by
  induction m with
  | nil => simp [withHandle, QMap.value]
  | cons p t ih =>
    obtain ⟨k', v⟩ := p
    simp only [withHandle, List.map_cons, QMap.value] at ih ⊢
    by_cases hk : k' = k
    · simp [hk]
    · simp [hk, ih]

theorem reassignHandles_sorted (h : Nat) (t acc : QMap NotificationInformation)
    (hwf : QMap.WF (acc ++ t)) (hown : OwnId t) :
    reassignHandles (QMap.values t) h acc = acc ++ withHandle h t := by
  induction t generalizing acc with
  | nil => simp [reassignHandles, withHandle]
  | cons p t ih =>
    obtain ⟨k, v⟩ := p
    have hid : v.id = k := hown (k, v) (by simp)
    have hless : ∀ k' ∈ QMap.keys acc, QMap.keyLess k' k := by
      intro k' hk'
      simp only [QMap.WF, List.map_append, List.map_cons, List.pairwise_append] at hwf
      exact hwf.2.2 k' hk' k (by simp)
    have hwf' : QMap.WF ((acc ++ [(k, { v with replaces_id := h })]) ++ t) := by
      simpa [QMap.WF] using hwf
    have := ih (acc ++ [(k, { v with replaces_id := h })]) hwf'
      (fun q hq => hown q (List.mem_cons_of_mem _ hq))
    simp only [QMap.values, List.map_cons, reassignHandles, hid] at this ⊢
    rw [QMap.insert_of_all_less _ hless, this]
    simp [withHandle, hid]

theorem reassignHandles_mem (h : Nat) (vals : List NotificationInformation)
    (acc : QMap NotificationInformation) (p : String × NotificationInformation)
    (hp : p ∈ reassignHandles vals h acc) : p ∈ acc ∨ p.2.replaces_id = h := by
  induction vals generalizing acc with
  | nil => exact Or.inl hp
  | cons v vals ih =>
    simp only [reassignHandles] at hp
    rcases ih _ hp with h₁ | h₁
    · rcases QMap.mem_insert h₁ with h₂ | h₂
      · exact Or.inr (by rw [h₂])
      · exact Or.inl h₂
    · exact Or.inr h₁

theorem updateExisting_skip (env : Collaborators) (chatMap : QMap ChatInformation)
    (chatId : String) (ids : List String) (m : QMap NotificationInformation)
    (requests : List Action) (h : ids = [] ∨ m = []) :
    updateExisting env chatMap chatId ids m requests = (m, requests) := by
  rcases h with h | h <;> subst h <;> simp [updateExisting]

theorem updateExisting_run (env : Collaborators) (chatMap : QMap ChatInformation)
    (chatId : String) (ids : List String) (k : String) (first : NotificationInformation)
    (t : QMap NotificationInformation) (requests : List Action)
    (hids : ids ≠ []) (hwf : QMap.WF ((k, first) :: t)) (hown : OwnId ((k, first) :: t)) :
    updateExisting env chatMap chatId ids ((k, first) :: t) requests =
      (withHandle (specHandle env (chatMap.value chatId) chatId first t requests)
          ((k, first) :: t),
        requests ++ specSent env (chatMap.value chatId) chatId first t requests) := by
  have hid : first.id = k := hown (k, first) (by simp)
  have hownt : OwnId t := fun q hq => hown q (List.mem_cons_of_mem _ hq)
  have hwf' := hwf
  simp only [QMap.WF, List.map_cons, List.pairwise_cons] at hwf'
  have hcond : (!ids.isEmpty && !QMap.isEmpty ((k, first) :: t)) = true := by
    cases ids with
    | nil => exact absurd rfl hids
    | cons _ _ => rfl
  unfold updateExisting
  rw [if_pos hcond]
  simp only [hid, QMap.remove_head hwf, sendNotification_eq]
  rw [reassignHandles_sorted _ t [] (by simpa [QMap.WF] using hwf'.2) hownt]
  rw [List.nil_append, QMap.insert_of_less_all]
  · simp [withHandle, specSent, specHandle, hid]
  · intro k' hk'
    rw [withHandle_keys] at hk'
    exact hwf'.1 k' hk'

theorem updateExisting_shared (env : Collaborators) (chatMap : QMap ChatInformation)
    (chatId : String) (ids : List String) (m : QMap NotificationInformation)
    (requests : List Action) (hids : ids ≠ []) (hm : m ≠ []) :
    ∃ log n, SharedHandle (updateExisting env chatMap chatId ids m requests).1
      (env.publish log n) := by
  cases m with
  | nil => exact absurd rfl hm
  | cons p t =>
    obtain ⟨k, first⟩ := p
    have hcond : (!ids.isEmpty && !QMap.isEmpty ((k, first) :: t)) = true := by
      cases ids with
      | nil => exact absurd rfl hids
      | cons _ _ => rfl
    unfold updateExisting
    rw [if_pos hcond]
    simp only [sendNotification_eq]
    refine ⟨requests ++ specCue env.notificationFeedback (QMap.remove ((k, first) :: t) first.id),
      specNotification env (chatMap.value chatId) chatId first
        (QMap.remove ((k, first) :: t) first.id), ?_⟩
    intro q hq
    rcases QMap.mem_insert hq with h₁ | h₁
    · rw [h₁]
      rfl
    · rcases reassignHandles_mem _ _ _ _ h₁ with h₂ | h₂
      · simp at h₂
      · exact h₂

/-! ## The addition loop -/

theorem addNotifications_cons (env : Collaborators) (chatMap : QMap ChatInformation)
    (chatId : String) (a : NotificationInformation) (more : List NotificationInformation)
    (m : QMap NotificationInformation) (requests : List Action) :
    addNotifications env chatMap chatId (a :: more) m requests =
      addNotifications env chatMap chatId more
        (m.insert a.id
          { a with replaces_id := specHandle env (chatMap.value chatId) chatId a m requests })
        (requests ++ specSent env (chatMap.value chatId) chatId a m requests) := by
  simp [addNotifications, sendNotification_eq]

/-! ## The handler as a whole -/

theorem handle_requests (env : Collaborators) (u : NotificationGroupUpdate) (s : State) :
    (handleUpdateNotificationGroup env u s).requests =
      (addNotifications env s.chatMap u.chat_id u.added_notifications
        (activeAfterRemovals env u s) (requestsBeforeAdditions env u s)).2 := by
  simp [handleUpdateNotificationGroup, activeAfterRemovals, requestsBeforeAdditions,
    activeNotificationsOf]

theorem handle_active (env : Collaborators) (u : NotificationGroupUpdate) (s : State) :
    activeNotificationsOf (handleUpdateNotificationGroup env u s) u.notification_group_id =
      (addNotifications env s.chatMap u.chat_id u.added_notifications
        (activeAfterRemovals env u s) (requestsBeforeAdditions env u s)).1 := by
  simp [handleUpdateNotificationGroup, activeAfterRemovals, requestsBeforeAdditions,
    activeNotificationsOf, QMap.value_insert_self]

/-! ## The smallest key -/

theorem smallestKeyEntry_of_WF {V : Type} (p : String × V) (t : QMap V)
    (hwf : QMap.WF (p :: t)) : smallestKeyEntry (p :: t) = some p := by
  induction t generalizing p with
  | nil => simp [smallestKeyEntry]
  | cons q t ih =>
    have hwf' := hwf
    simp only [QMap.WF, List.map_cons, List.pairwise_cons] at hwf'
    have hq : smallestKeyEntry (q :: t) = some q := ih q (by simpa [QMap.WF] using hwf'.2)
    have hlt : QMap.keyLess p.1 q.1 := hwf'.1 q.1 (by simp)
    have hnot : ¬ q.1.toList < p.1.toList :=
      fun h => QMap.keyLess_irrefl _ (QMap.keyLess_trans hlt h)
    rw [smallestKeyEntry, hq]
    simp only [if_neg hnot]

theorem specReplaces_eq_smallest (others : QMap NotificationInformation)
    (hwf : QMap.WF others) :
    specReplaces others = ((smallestKeyEntry others).map (fun p => p.2.replaces_id)).getD 0 := by
  cases others with
  | nil => simp [specReplaces, smallestKeyEntry]
  | cons p t =>
    rw [smallestKeyEntry_of_WF p t hwf]
    rfl

/-! ## C6: the presentation branch -/

/-- C6. For every input of `sendNotification(chatId, info, others)`: one notification
`n` is published; its body is the author line followed by the short text when `others`
is empty and "N unread messages" with `N = size(others) + 1` otherwise; it requests no
replacement (handle 0) when `others` is empty and otherwise the `replaces_id` of the
entry of `others` with the smallest key; and the returned record is `info` with
`replaces_id` set to the handle the platform reports for `n`. -/
theorem sendNotification_presentation (env : Collaborators) (chatMap : QMap ChatInformation)
    (chatId : String) (info : NotificationInformation)
    (others : QMap NotificationInformation) (requests : List Action)
    (hwf : QMap.WF others) :
    ∃ (n : NemoNotification) (cue : List Action),
      sendNotification env chatMap chatId info others requests =
        ({ info with replaces_id := env.publish (requests ++ cue) n },
          requests ++ cue ++
            [Action.publish n (env.publish (requests ++ cue) n),
              Action.mceCall ACTIVATE PATTERN]) ∧
      (∀ c ∈ cue, c = Action.play "chat") ∧
      n.body =
        (if others = [] then
          specAuthorLine env (chatMap.value chatId) info ++
            env.getMessageShortText info.message.content false
        else toString (others.size + 1) ++ " unread messages") ∧
      n.replacesId =
        ((smallestKeyEntry others).map (fun p => p.2.replaces_id)).getD 0 ∧
      (others = [] → n.replacesId = 0) := by
  refine ⟨specNotification env (chatMap.value chatId) chatId info others,
    specCue env.notificationFeedback others, ?_, ?_, ?_, ?_, ?_⟩
  · rw [sendNotification_eq]
    simp [specSent, specHandle]
  · intro c hc
    unfold specCue at hc
    split at hc
    · simpa using hc
    · simp at hc
  · rfl
  · exact specReplaces_eq_smallest others hwf
  · intro h
    subst h
    rfl

/-- C6 at a concrete input: `C` sent into a basic group that has `B` (key "2") and `A`
(key "1", handle 7) pending asks to replace handle 7 with "3 unread messages". -/
theorem sendNotification_presentation_witness :
    QMap.WF [("1", { sampleA with replaces_id := 7 }), ("2", sampleB)] ∧
    ∃ (n : NemoNotification) (cue : List Action),
      sendNotification sampleEnv sampleChats "c" sampleC
          [("1", { sampleA with replaces_id := 7 }), ("2", sampleB)] [] =
        ({ sampleC with replaces_id := sampleEnv.publish ([] ++ cue) n },
          [] ++ cue ++
            [Action.publish n (sampleEnv.publish ([] ++ cue) n),
              Action.mceCall ACTIVATE PATTERN]) ∧
      (∀ c ∈ cue, c = Action.play "chat") ∧
      n.body = "3 unread messages" ∧
      n.replacesId = 7 ∧
      (([("1", { sampleA with replaces_id := 7 }), ("2", sampleB)] :
          QMap NotificationInformation) = [] → n.replacesId = 0) :=
  ⟨by decide,
    sendNotification_presentation sampleEnv sampleChats "c" sampleC
      [("1", { sampleA with replaces_id := 7 }), ("2", sampleB)] [] (by decide)⟩

/-! ## C8: the feedback policy -/

/-- C8. Every call of `sendNotification` publishes its notification.  It requests the
audio cue `play "chat"` and sets the category `x-nemo.messaging.im` exactly when the
feedback preference is "all", or is neither "none" nor "all" while no other
notification is pending; otherwise it requests no cue and leaves the category unset.
The `is_silent` flag of an update has no influence on the requests of
`handleUpdateNotificationGroup`. -/
theorem feedback_policy (env : Collaborators) (chatMap : QMap ChatInformation)
    (chatId : String) (info : NotificationInformation)
    (others : QMap NotificationInformation) (requests : List Action)
    (u : NotificationGroupUpdate) (s : State) (silent : Bool) :
    (∃ (n : NemoNotification) (h : Nat),
      (sendNotification env chatMap chatId info others requests).2 =
        requests ++
          (if env.notificationFeedback = NotificationFeedback.NotificationFeedbackAll ∨
              (env.notificationFeedback ≠ NotificationFeedback.NotificationFeedbackNone ∧
                env.notificationFeedback ≠ NotificationFeedback.NotificationFeedbackAll ∧
                others = [])
            then [Action.play "chat"] else []) ++
          [Action.publish n h, Action.mceCall ACTIVATE PATTERN] ∧
      n.category =
        (if env.notificationFeedback = NotificationFeedback.NotificationFeedbackAll ∨
            (env.notificationFeedback ≠ NotificationFeedback.NotificationFeedbackNone ∧
              env.notificationFeedback ≠ NotificationFeedback.NotificationFeedbackAll ∧
              others = [])
          then "x-nemo.messaging.im" else "")) ∧
    (handleUpdateNotificationGroup env { u with is_silent := silent } s).requests =
      (handleUpdateNotificationGroup env u s).requests := by
  refine ⟨⟨specNotification env (chatMap.value chatId) chatId info others,
    specHandle env (chatMap.value chatId) chatId info others requests, ?_, ?_⟩, ?_⟩
  · rw [sendNotification_eq]
    simp [specSent, specCue, specNeedsFeedback]
  · simp [specNotification, specNeedsFeedback]
  · rfl

/-! ## C7: adding to a non-empty group -/

/-- C7. When a group tracks `k ≥ 1` notifications that all carry handle `H1` and an
update removes nothing and adds one notification `B` under a new id, the handler sends,
after the optional audio cue, exactly one publish, with body "(k+1) unread messages"
and a request to replace `H1`, followed by an LED activate request, and no dismissal;
every existing record is unchanged, `B` is stored with the handle the platform
reported, and the group tracks `k+1` notifications. -/
theorem add_to_nonempty_group (env : Collaborators) (s : State) (u : NotificationGroupUpdate)
    (B : NotificationInformation) (H1 : Nat)
    (hne : activeNotificationsOf s u.notification_group_id ≠ [])
    (hshared : SharedHandle (activeNotificationsOf s u.notification_group_id) H1)
    (hrem : u.removed_notification_ids = []) (hadd : u.added_notifications = [B])
    (hnew : B.id ∉ QMap.keys (activeNotificationsOf s u.notification_group_id)) :
    ∃ (n : NemoNotification) (h : Nat),
      (handleUpdateNotificationGroup env u s).requests =
        s.requests ++
          (if env.notificationFeedback = NotificationFeedback.NotificationFeedbackAll
            then [Action.play "chat"] else []) ++
          [Action.publish n h, Action.mceCall ACTIVATE PATTERN] ∧
      n.body =
        toString ((activeNotificationsOf s u.notification_group_id).size + 1) ++
          " unread messages" ∧
      n.replacesId = H1 ∧
      (∀ key, key ≠ B.id →
        (activeNotificationsOf (handleUpdateNotificationGroup env u s)
            u.notification_group_id).value key =
          (activeNotificationsOf s u.notification_group_id).value key) ∧
      (activeNotificationsOf (handleUpdateNotificationGroup env u s)
          u.notification_group_id).value B.id = some { B with replaces_id := h } ∧
      (activeNotificationsOf (handleUpdateNotificationGroup env u s)
          u.notification_group_id).size =
        (activeNotificationsOf s u.notification_group_id).size + 1 := by
  have hafter : activeAfterRemovals env u s =
      activeNotificationsOf s u.notification_group_id := by
    simp [activeAfterRemovals, processRemovals, hrem, removeNotifications, updateExisting]
  have hreq : requestsBeforeAdditions env u s = s.requests := by
    cases hm : activeNotificationsOf s u.notification_group_id with
    | nil => exact absurd hm hne
    | cons p t =>
      simp [requestsBeforeAdditions, processRemovals, hrem, removeNotifications,
        updateExisting, hm]
  rw [handle_requests, handle_active, hafter, hreq, hadd, addNotifications_cons]
  simp only [addNotifications]
  cases hm : activeNotificationsOf s u.notification_group_id with
  | nil => exact absurd hm hne
  | cons p t =>
    rw [hm] at hnew
    have hfirst : p.2.replaces_id = H1 := hshared p (by rw [hm]; simp)
    refine ⟨specNotification env (s.chatMap.value u.chat_id) u.chat_id B (p :: t),
      specHandle env (s.chatMap.value u.chat_id) u.chat_id B (p :: t) s.requests,
      ?_, ?_, ?_, ?_, ?_, ?_⟩
    · simp [specSent, specCue, specNeedsFeedback]
    · simp [specNotification, specBody, specAggregateBody]
    · simp [specNotification, specReplaces, hfirst]
    · intro key hkey
      exact QMap.value_insert_ne _ _ hkey
    · exact QMap.value_insert_self _ _ _
    · exact QMap.length_insert _ hnew

/-- C7 at the group `{A(5)}`: adding notification "4" publishes "2 unread messages"
against handle 5. -/
theorem add_to_nonempty_group_witness :
    ∃ (n : NemoNotification) (h : Nat),
      (handleUpdateNotificationGroup sampleEnvAll (sampleUpdate [] [sampleNew])
          (sampleState [("1", sampleA)])).requests =
        [] ++ [Action.play "chat"] ++
          [Action.publish n h, Action.mceCall ACTIVATE PATTERN] ∧
      n.body = "2 unread messages" ∧
      n.replacesId = 5 ∧
      (∀ key, key ≠ "4" →
        (activeNotificationsOf (handleUpdateNotificationGroup sampleEnvAll
            (sampleUpdate [] [sampleNew]) (sampleState [("1", sampleA)])) "g").value key =
          (activeNotificationsOf (sampleState [("1", sampleA)]) "g").value key) ∧
      (activeNotificationsOf (handleUpdateNotificationGroup sampleEnvAll
          (sampleUpdate [] [sampleNew]) (sampleState [("1", sampleA)])) "g").value "4" =
        some { sampleNew with replaces_id := h } ∧
      (activeNotificationsOf (handleUpdateNotificationGroup sampleEnvAll
          (sampleUpdate [] [sampleNew]) (sampleState [("1", sampleA)])) "g").size = 1 + 1 :=
  add_to_nonempty_group sampleEnvAll (sampleState [("1", sampleA)])
    (sampleUpdate [] [sampleNew]) sampleNew 5 (by decide) (by decide) rfl rfl (by decide)

/-! ## C2: removing one of several -/

/-- C2. When a group tracks `k ≥ 2` notifications, each under its own id and all with
handle `H`, and an update removes exactly one tracked id `a` and adds nothing, the
handler sends one dismissal of `H`, then, after the optional audio cue, one publish
followed by an LED activate request; afterwards the group tracks the `k-1` other
records, each with the handle that publish returned.  The body of the publish is
"(k-1) unread messages" when `k-1 ≥ 2`, and the single-message rendering of the one
remaining record, with no replacement request, when `k-1 = 1`. -/
theorem remove_one_of_several (env : Collaborators) (s : State) (u : NotificationGroupUpdate)
    (a : String) (H : Nat)
    (hwf : QMap.WF (activeNotificationsOf s u.notification_group_id))
    (hown : OwnId (activeNotificationsOf s u.notification_group_id))
    (hshared : SharedHandle (activeNotificationsOf s u.notification_group_id) H)
    (hk : 2 ≤ (activeNotificationsOf s u.notification_group_id).size)
    (ha : a ∈ QMap.keys (activeNotificationsOf s u.notification_group_id))
    (har : a ∈ u.removed_notification_ids)
    (honly : ∀ r ∈ u.removed_notification_ids,
      r ∈ QMap.keys (activeNotificationsOf s u.notification_group_id) → r = a)
    (hadd : u.added_notifications = []) :
    ∃ (n : NemoNotification) (h : Nat) (cue : List Action),
      (handleUpdateNotificationGroup env u s).requests =
        s.requests ++ [Action.close H] ++ cue ++
          [Action.publish n h, Action.mceCall ACTIVATE PATTERN] ∧
      (∀ c ∈ cue, c = Action.play "chat") ∧
      activeNotificationsOf (handleUpdateNotificationGroup env u s) u.notification_group_id =
        withHandle h ((activeNotificationsOf s u.notification_group_id).remove a) ∧
      (activeNotificationsOf (handleUpdateNotificationGroup env u s)
          u.notification_group_id).size =
        (activeNotificationsOf s u.notification_group_id).size - 1 ∧
      SharedHandle
        (activeNotificationsOf (handleUpdateNotificationGroup env u s) u.notification_group_id)
        h ∧
      (2 ≤ (activeNotificationsOf s u.notification_group_id).size - 1 →
        n.body =
          toString ((activeNotificationsOf s u.notification_group_id).size - 1) ++
            " unread messages") ∧
      ((activeNotificationsOf s u.notification_group_id).size - 1 = 1 →
        ∃ b rec, (activeNotificationsOf s u.notification_group_id).remove a = [(b, rec)] ∧
          n.body = specSingleBody env (s.chatMap.value u.chat_id) rec ∧ n.replacesId = 0) := by
  obtain ⟨info, hinfo⟩ : ∃ info,
      (activeNotificationsOf s u.notification_group_id).value a = some info := by
    cases hv : (activeNotificationsOf s u.notification_group_id).value a with
    | none => exact absurd ha (QMap.value_eq_none.mp hv)
    | some info => exact ⟨info, rfl⟩
  have hH : info.replaces_id = H := hshared (a, info) (QMap.mem_of_value hinfo)
  have hlen := QMap.length_remove hwf ha
  have hids : u.removed_notification_ids ≠ [] := List.ne_nil_of_mem har
  have hrm := removeNotifications_one u.removed_notification_ids
    (activeNotificationsOf s u.notification_group_id) s.requests a info har hinfo honly
  cases hm : (activeNotificationsOf s u.notification_group_id).remove a with
  | nil =>
    rw [hm] at hlen
    simp only [QMap.size] at hk
    simp at hlen
    omega
  | cons p t =>
    obtain ⟨k₁, first⟩ := p
    have hwf' : QMap.WF ((k₁, first) :: t) := hm ▸ QMap.WF_remove hwf a
    have hown' : OwnId ((k₁, first) :: t) := by
      intro q hq
      rw [← hm] at hq
      exact hown q (QMap.mem_remove.mp hq).1
    have hrun := updateExisting_run env s.chatMap u.chat_id u.removed_notification_ids k₁
      first t (s.requests ++ [Action.close info.replaces_id]) hids hwf' hown'
    have hafter : activeAfterRemovals env u s =
        withHandle (specHandle env (s.chatMap.value u.chat_id) u.chat_id first t
          (s.requests ++ [Action.close info.replaces_id])) ((k₁, first) :: t) := by
      simp only [activeAfterRemovals, processRemovals, hrm, hm, hrun]
    have hreq : requestsBeforeAdditions env u s =
        s.requests ++ [Action.close info.replaces_id] ++
          specSent env (s.chatMap.value u.chat_id) u.chat_id first t
            (s.requests ++ [Action.close info.replaces_id]) := by
      simp only [requestsBeforeAdditions, processRemovals, hrm, hm, hrun]
      simp [withHandle]
    rw [handle_requests, handle_active, hafter, hreq, hadd]
    simp only [addNotifications]
    rw [hm] at hlen
    simp only [List.length_cons] at hlen
    refine ⟨specNotification env (s.chatMap.value u.chat_id) u.chat_id first t,
      specHandle env (s.chatMap.value u.chat_id) u.chat_id first t
        (s.requests ++ [Action.close info.replaces_id]),
      specCue env.notificationFeedback t, ?_, ?_, rfl, ?_, withHandle_shared _ _, ?_, ?_⟩
    · simp [specSent, hH]
    · intro c hc
      unfold specCue at hc
      split at hc
      · simpa using hc
      · simp at hc
    · simp only [QMap.size, withHandle_length, List.length_cons]
      omega
    · intro h2
      have ht : t ≠ [] := by
        intro e
        subst e
        simp only [QMap.size, List.length_nil] at h2 hlen
        omega
      have hsz : (activeNotificationsOf s u.notification_group_id).size - 1 = t.length + 1 := by
        simp only [QMap.size]
        omega
      rw [hsz]
      simp [specNotification, specBody, specAggregateBody, ht]
    · intro h1
      have ht : t = [] := by
        apply List.eq_nil_of_length_eq_zero
        simp only [QMap.size] at h1
        omega
      subst ht
      exact ⟨k₁, first, rfl, rfl, rfl⟩

/-- C2 at the group `{A(5), B(5)}` with the update that removes `A`: one dismissal of
handle 5, one publish of `B` in single-message form, one record left. -/
theorem remove_one_of_several_witness :
    ∃ (n : NemoNotification) (h : Nat) (cue : List Action),
      (handleUpdateNotificationGroup sampleEnv (sampleUpdate ["1"] [])
          (sampleState [("1", sampleA), ("2", sampleB)])).requests =
        [] ++ [Action.close 5] ++ cue ++
          [Action.publish n h, Action.mceCall ACTIVATE PATTERN] ∧
      (∀ c ∈ cue, c = Action.play "chat") ∧
      activeNotificationsOf (handleUpdateNotificationGroup sampleEnv (sampleUpdate ["1"] [])
          (sampleState [("1", sampleA), ("2", sampleB)])) "g" =
        withHandle h [("2", sampleB)] ∧
      (activeNotificationsOf (handleUpdateNotificationGroup sampleEnv (sampleUpdate ["1"] [])
          (sampleState [("1", sampleA), ("2", sampleB)])) "g").size = 2 - 1 ∧
      SharedHandle
        (activeNotificationsOf (handleUpdateNotificationGroup sampleEnv
          (sampleUpdate ["1"] []) (sampleState [("1", sampleA), ("2", sampleB)])) "g") h ∧
      (2 ≤ 2 - 1 → n.body = "1 unread messages") ∧
      (2 - 1 = 1 →
        ∃ b rec, ([("2", sampleB)] : QMap NotificationInformation) = [(b, rec)] ∧
          n.body = specSingleBody sampleEnv (some { title := "T", chatType := "chatTypeBasicGroup" })
            rec ∧ n.replacesId = 0) :=
  remove_one_of_several sampleEnv (sampleState [("1", sampleA), ("2", sampleB)])
    (sampleUpdate ["1"] []) "1" 5 (by decide) (by decide) (by decide) (by decide) (by decide)
    (by decide) (by decide) rfl

/-! ## The shape of the requests -/

theorem publishThenLed_of_no_publish {e : List Action}
    (h : ∀ n handle, Action.publish n handle ∉ e) : PublishThenLed e := by
  intro pre n handle post he
  exact absurd (he ▸ by simp) (h n handle)

theorem publishThenLed_append {e₁ e₂ : List Action} (h₁ : PublishThenLed e₁)
    (h₂ : PublishThenLed e₂) : PublishThenLed (e₁ ++ e₂) := by
  intro pre n handle post he
  rcases List.append_eq_append_iff.mp he with ⟨a', hpre, hl₂⟩ | ⟨c', hl₁, hl₂⟩
  · exact h₂ a' n handle post hl₂
  · cases c' with
    | nil =>
      simp only [List.nil_append] at hl₂
      exact h₂ [] n handle post hl₂.symm
    | cons y c'' =>
      simp only [List.cons_append, List.cons.injEq] at hl₂
      obtain ⟨hy, hpost⟩ := hl₂
      subst hy
      obtain ⟨post', hp'⟩ := h₁ pre n handle c'' hl₁
      exact ⟨post' ++ e₂, by rw [hpost, hp']; simp⟩

theorem publishThenLed_pair (n : NemoNotification) (handle : Nat) :
    PublishThenLed [Action.publish n handle, Action.mceCall ACTIVATE PATTERN] := by
  intro pre n' handle' post he
  rcases pre with _ | ⟨x, _ | ⟨y, pre⟩⟩
  · simp only [List.nil_append, List.cons.injEq] at he
    exact ⟨[], he.2.symm⟩
  · simp at he
  · simp at he

theorem orderly_nil : Orderly [] :=
  ⟨by simp, publishThenLed_of_no_publish (by simp)⟩

theorem orderly_append {e₁ e₂ : List Action} (h₁ : Orderly e₁) (h₂ : Orderly e₂) :
    Orderly (e₁ ++ e₂) :=
  ⟨by simp [h₁.1, h₂.1], publishThenLed_append h₁.2 h₂.2⟩

theorem orderly_specSent (env : Collaborators) (chat : Option ChatInformation)
    (chatId : String) (info : NotificationInformation)
    (others : QMap NotificationInformation) (requests : List Action) :
    Orderly (specSent env chat chatId info others requests) := by
  unfold specSent
  apply orderly_append
  · unfold specCue
    split
    · exact ⟨by simp, publishThenLed_of_no_publish (by simp)⟩
    · exact orderly_nil
  · refine ⟨?_, publishThenLed_pair _ _⟩
    simp [ACTIVATE, DEACTIVATE]

theorem orderly_closes {closes : List Action}
    (h : ∀ c ∈ closes, ∃ handle, c = Action.close handle) : Orderly closes := by
  constructor
  · intro hmem
    obtain ⟨handle, hc⟩ := h _ hmem
    simp at hc
  · apply publishThenLed_of_no_publish
    intro n handle hmem
    obtain ⟨handle', hc⟩ := h _ hmem
    simp at hc

theorem updateExisting_snd (env : Collaborators) (chatMap : QMap ChatInformation)
    (chatId : String) (ids : List String) (m : QMap NotificationInformation)
    (requests : List Action) :
    ∃ e, (updateExisting env chatMap chatId ids m requests).2 = requests ++ e ∧ Orderly e := by
  unfold updateExisting
  split
  · cases m with
    | nil => exact ⟨[], by simp, orderly_nil⟩
    | cons p t =>
      simp only [sendNotification_eq]
      exact ⟨_, rfl, orderly_specSent _ _ _ _ _ _⟩
  · exact ⟨[], by simp, orderly_nil⟩

theorem processRemovals_snd (env : Collaborators) (chatMap : QMap ChatInformation)
    (chatId : String) (ids : List String) (m : QMap NotificationInformation)
    (requests : List Action) :
    ∃ e, (processRemovals env chatMap chatId ids m requests).2 = requests ++ e ∧
      Orderly e := by
  obtain ⟨closes, h₁, h₂, _⟩ := removeNotifications_snd ids m requests
  obtain ⟨e, h₃, h₄⟩ := updateExisting_snd env chatMap chatId ids
    (removeNotifications ids m requests).1 (removeNotifications ids m requests).2
  refine ⟨closes ++ e, ?_, orderly_append (orderly_closes ?_) h₄⟩
  · simp only [processRemovals]
    rw [h₃, h₁, List.append_assoc]
  · intro c hc
    obtain ⟨p, _, hp⟩ := h₂ c hc
    exact ⟨_, hp⟩

theorem addNotifications_snd (env : Collaborators) (chatMap : QMap ChatInformation)
    (chatId : String) (added : List NotificationInformation)
    (m : QMap NotificationInformation) (requests : List Action) :
    ∃ e, (addNotifications env chatMap chatId added m requests).2 = requests ++ e ∧
      Orderly e := by
  induction added generalizing m requests with
  | nil => exact ⟨[], by simp [addNotifications], orderly_nil⟩
  | cons a more ih =>
    rw [addNotifications_cons]
    obtain ⟨e, h₁, h₂⟩ := ih
      (m.insert a.id
        { a with replaces_id := specHandle env (chatMap.value chatId) chatId a m requests })
      (requests ++ specSent env (chatMap.value chatId) chatId a m requests)
    exact ⟨specSent env (chatMap.value chatId) chatId a m requests ++ e,
      by rw [h₁, List.append_assoc], orderly_append (orderly_specSent _ _ _ _ _ _) h₂⟩

/-! ## C9: the LED rule -/

/-- C9. The requests one call of `handleUpdateNotificationGroup` sends hold exactly one
LED deactivate request when the group has no record left after the removals and the
update of the remaining records, and none otherwise; every publish among them is
directly followed by an LED activate request.  When the group tracks exactly one
notification and the update removes it and adds nothing, the handler dismisses it,
sends as its only LED request a deactivate of "PatternCommunicationIM", and leaves the
group without records. -/
theorem led_rule (env : Collaborators) (s : State) (u : NotificationGroupUpdate) :
    ∃ e, (handleUpdateNotificationGroup env u s).requests = s.requests ++ e ∧
      e.count (Action.mceCall "req_led_pattern_deactivate" "PatternCommunicationIM") =
        (if activeAfterRemovals env u s = [] then 1 else 0) ∧
      (Action.mceCall "req_led_pattern_deactivate" "PatternCommunicationIM" ∈ e ↔
        activeAfterRemovals env u s = []) ∧
      (∀ pre n h post, e = pre ++ Action.publish n h :: post →
        ∃ post', post =
          Action.mceCall "req_led_pattern_activate" "PatternCommunicationIM" :: post') ∧
      (∀ k rec, activeNotificationsOf s u.notification_group_id = [(k, rec)] →
        k ∈ u.removed_notification_ids → u.added_notifications = [] →
        e = [Action.close rec.replaces_id,
          Action.mceCall "req_led_pattern_deactivate" "PatternCommunicationIM"] ∧
        activeNotificationsOf (handleUpdateNotificationGroup env u s)
          u.notification_group_id = []) := by
  obtain ⟨e₁, h₁, o₁⟩ := processRemovals_snd env s.chatMap u.chat_id
    u.removed_notification_ids (activeNotificationsOf s u.notification_group_id) s.requests
  obtain ⟨e₂, h₂, o₂⟩ := addNotifications_snd env s.chatMap u.chat_id
    u.added_notifications (activeAfterRemovals env u s) (requestsBeforeAdditions env u s)
  have hled : requestsBeforeAdditions env u s =
      s.requests ++ e₁ ++
        (if activeAfterRemovals env u s = [] then [Action.mceCall DEACTIVATE PATTERN]
          else []) := by
    unfold requestsBeforeAdditions activeAfterRemovals
    simp only [h₁]
    cases (processRemovals env s.chatMap u.chat_id u.removed_notification_ids
      (activeNotificationsOf s u.notification_group_id) s.requests).1 <;>
      simp [controlLedNotification]
  have hreq : (handleUpdateNotificationGroup env u s).requests =
      s.requests ++ (e₁ ++ (if activeAfterRemovals env u s = []
        then [Action.mceCall DEACTIVATE PATTERN] else []) ++ e₂) := by
    rw [handle_requests, h₂, hled]
    simp only [List.append_assoc]
  have hc₁ : e₁.count (Action.mceCall DEACTIVATE PATTERN) = 0 :=
    List.count_eq_zero.mpr o₁.1
  have hc₂ : e₂.count (Action.mceCall DEACTIVATE PATTERN) = 0 :=
    List.count_eq_zero.mpr o₂.1
  have hcount : (e₁ ++ (if activeAfterRemovals env u s = []
        then [Action.mceCall DEACTIVATE PATTERN] else []) ++ e₂).count
        (Action.mceCall DEACTIVATE PATTERN) =
      (if activeAfterRemovals env u s = [] then 1 else 0) := by
    simp only [List.count_append, hc₁, hc₂]
    split <;> simp
  refine ⟨_, hreq, hcount, ?_, ?_, ?_⟩
  · have := o₁.1
    have := o₂.1
    by_cases hempty : activeAfterRemovals env u s = []
    · simp [hempty, DEACTIVATE, PATTERN]
    · simp only [hempty, if_false, List.append_nil, iff_false, List.mem_append, not_or]
      exact ⟨o₁.1, o₂.1⟩
  · have hmid : PublishThenLed (if activeAfterRemovals env u s = []
        then [Action.mceCall DEACTIVATE PATTERN] else []) := by
      apply publishThenLed_of_no_publish
      intro n h
      split <;> simp
    exact publishThenLed_append (publishThenLed_append o₁.2 hmid) o₂.2
  · intro k rec hm hk hadd
    have hv : (activeNotificationsOf s u.notification_group_id).value k = some rec := by
      simp [hm, QMap.value]
    have hrm := removeNotifications_one u.removed_notification_ids
      (activeNotificationsOf s u.notification_group_id) s.requests k rec hk hv
      (by
        intro r _ hr
        simpa [hm] using hr)
    have hrem : (activeNotificationsOf s u.notification_group_id).remove k = [] := by
      simp [hm, QMap.remove]
    have hpr : processRemovals env s.chatMap u.chat_id u.removed_notification_ids
        (activeNotificationsOf s u.notification_group_id) s.requests =
        ([], s.requests ++ [Action.close rec.replaces_id]) := by
      simp only [processRemovals, hrm, hrem]
      exact updateExisting_skip _ _ _ _ _ _ (Or.inr rfl)
    have hafter : activeAfterRemovals env u s = [] := by
      simp only [activeAfterRemovals, hpr]
    have hreqs : requestsBeforeAdditions env u s =
        s.requests ++ [Action.close rec.replaces_id, Action.mceCall DEACTIVATE PATTERN] := by
      simp [requestsBeforeAdditions, hpr, controlLedNotification]
    constructor
    · have h₃ := hreq
      rw [handle_requests, hadd, hreqs] at h₃
      simp only [addNotifications] at h₃
      exact (List.append_cancel_left h₃).symm
    · rw [handle_active, hadd, hafter]
      rfl

/-- C9 at the group `{A(5)}` with the update that removes `A`: the requests are the
dismissal of handle 5 and one LED deactivate, and no record is left. -/
theorem led_rule_witness :
    (handleUpdateNotificationGroup sampleEnv (sampleUpdate ["1"] [])
        (sampleState [("1", sampleA)])).requests =
      [Action.close 5, Action.mceCall "req_led_pattern_deactivate" "PatternCommunicationIM"] ∧
    activeNotificationsOf (handleUpdateNotificationGroup sampleEnv (sampleUpdate ["1"] [])
      (sampleState [("1", sampleA)])) "g" = [] := by
  obtain ⟨e, h₁, _, _, _, h₅⟩ := led_rule sampleEnv (sampleState [("1", sampleA)])
    (sampleUpdate ["1"] [])
  obtain ⟨h₆, h₇⟩ := h₅ "1" sampleA rfl (by decide) rfl
  exact ⟨by rw [h₁, h₆]; rfl, h₇⟩

/-! ## The records after the removals -/

theorem remaining_WF {ids : List String} {m : QMap NotificationInformation}
    (hwf : QMap.WF m) : QMap.WF (remaining ids m) :=
  QMap.WF_filter hwf _

theorem remaining_ownId {ids : List String} {m : QMap NotificationInformation}
    (hown : OwnId m) : OwnId (remaining ids m) :=
  fun p hp => hown p (List.mem_filter.mp hp).1

theorem remaining_shared {ids : List String} {m : QMap NotificationInformation} {H : Nat}
    (h : SharedHandle m H) : SharedHandle (remaining ids m) H :=
  fun p hp => h p (List.mem_filter.mp hp).1

theorem mem_keys_remaining {ids : List String} {m : QMap NotificationInformation}
    {k : String} : k ∈ QMap.keys (remaining ids m) ↔ k ∈ QMap.keys m ∧ k ∉ ids := by
  simp only [QMap.keys, remaining, List.mem_map, List.mem_filter]
  constructor
  · rintro ⟨p, ⟨hp, hf⟩, rfl⟩
    exact ⟨⟨p, hp, rfl⟩, by simpa using hf⟩
  · rintro ⟨⟨p, hp, rfl⟩, hk⟩
    exact ⟨p, ⟨hp, by simpa using hk⟩, rfl⟩

theorem processRemovals_skip (env : Collaborators) (chatMap : QMap ChatInformation)
    (chatId : String) (ids : List String) (m : QMap NotificationInformation)
    (requests : List Action) (h : ids = [] ∨ remaining ids m = []) :
    processRemovals env chatMap chatId ids m requests =
      (remaining ids m, (removeNotifications ids m requests).2) := by
  have hfst := removeNotifications_fst ids m requests
  unfold processRemovals
  rw [updateExisting_skip _ _ _ _ _ _ (by rw [hfst]; exact h)]
  exact Prod.ext hfst rfl

theorem processRemovals_run (env : Collaborators) (chatMap : QMap ChatInformation)
    (chatId : String) (ids : List String) (m : QMap NotificationInformation)
    (requests : List Action) (k : String) (first : NotificationInformation)
    (t : QMap NotificationInformation)
    (hwf : QMap.WF m) (hown : OwnId m) (hids : ids ≠ [])
    (hleft : remaining ids m = (k, first) :: t) :
    processRemovals env chatMap chatId ids m requests =
      (withHandle (specHandle env (chatMap.value chatId) chatId first t
          (removeNotifications ids m requests).2) (remaining ids m),
        (removeNotifications ids m requests).2 ++
          specSent env (chatMap.value chatId) chatId first t
            (removeNotifications ids m requests).2) := by
  have hfst : (removeNotifications ids m requests).1 = (k, first) :: t := by
    rw [removeNotifications_fst]
    exact hleft
  unfold processRemovals
  simp only [hfst]
  rw [updateExisting_run env chatMap chatId ids k first t _ hids
    (hleft ▸ remaining_WF hwf) (hleft ▸ remaining_ownId hown), hleft]

theorem processRemovals_fst_cases (env : Collaborators) (chatMap : QMap ChatInformation)
    (chatId : String) (ids : List String) (m : QMap NotificationInformation)
    (requests : List Action) (hwf : QMap.WF m) (hown : OwnId m) :
    (processRemovals env chatMap chatId ids m requests).1 = remaining ids m ∨
      ∃ h, (processRemovals env chatMap chatId ids m requests).1 =
        withHandle h (remaining ids m) := by
  by_cases hids : ids = []
  · exact Or.inl (by rw [processRemovals_skip _ _ _ _ _ _ (Or.inl hids)])
  · cases hleft : remaining ids m with
    | nil =>
      left
      rw [processRemovals_skip _ _ _ _ _ _ (Or.inr hleft), hleft]
    | cons p t =>
      right
      obtain ⟨k, first⟩ := p
      rw [processRemovals_run env chatMap chatId ids m requests k first t hwf hown hids hleft]
      exact ⟨_, by rw [hleft]⟩

/-! ## The records after the additions -/

theorem addNotifications_keys (env : Collaborators) (chatMap : QMap ChatInformation)
    (chatId : String) (added : List NotificationInformation)
    (m : QMap NotificationInformation) (requests : List Action) (k : String) :
    k ∈ QMap.keys (addNotifications env chatMap chatId added m requests).1 ↔
      k ∈ QMap.keys m ∨ k ∈ added.map (fun a => a.id) := by
  induction added generalizing m requests with
  | nil => simp [addNotifications]
  | cons a more ih =>
    rw [addNotifications_cons, ih, QMap.mem_keys_insert]
    simp only [List.map_cons, List.mem_cons]
    tauto

theorem addNotifications_ownId (env : Collaborators) (chatMap : QMap ChatInformation)
    (chatId : String) (added : List NotificationInformation)
    (m : QMap NotificationInformation) (requests : List Action) (hown : OwnId m) :
    OwnId (addNotifications env chatMap chatId added m requests).1 := by
  induction added generalizing m requests with
  | nil => simpa [addNotifications] using hown
  | cons a more ih =>
    rw [addNotifications_cons]
    apply ih
    intro p hp
    rcases QMap.mem_insert hp with h | h
    · rw [h]
    · exact hown p h

theorem addNotifications_WF (env : Collaborators) (chatMap : QMap ChatInformation)
    (chatId : String) (added : List NotificationInformation)
    (m : QMap NotificationInformation) (requests : List Action) (hwf : QMap.WF m) :
    QMap.WF (addNotifications env chatMap chatId added m requests).1 := by
  induction added generalizing m requests with
  | nil => simpa [addNotifications] using hwf
  | cons a more ih =>
    rw [addNotifications_cons]
    exact ih _ _ (QMap.WF_insert hwf _ _)

theorem addNotifications_source (env : Collaborators) (chatMap : QMap ChatInformation)
    (chatId : String) (added : List NotificationInformation)
    (m : QMap NotificationInformation) (requests : List Action)
    (p : String × NotificationInformation)
    (hp : p ∈ (addNotifications env chatMap chatId added m requests).1) :
    (∃ a ∈ added, a.id = p.1 ∧ SameButHandle p.2 a) ∨ p ∈ m := by
  induction added generalizing m requests with
  | nil => exact Or.inr (by simpa [addNotifications] using hp)
  | cons a more ih =>
    rw [addNotifications_cons] at hp
    rcases ih _ _ hp with ⟨b, hb, h₁, h₂⟩ | h
    · exact Or.inl ⟨b, List.mem_cons_of_mem _ hb, h₁, h₂⟩
    · rcases QMap.mem_insert h with h | h
      · exact Or.inl ⟨a, by simp, by rw [h], by rw [h]; exact ⟨rfl, rfl, rfl⟩⟩
      · exact Or.inr h

/-- C10. When every record of the group is stored under its own id, then after
`handleUpdateNotificationGroup` (a) every record of the group is still stored under its
own id, and the keys still strictly increase; (b) the tracked ids are the previously
tracked ids that are not in `removed_notification_ids`, together with the ids of
`added_notifications`; (c) every record agrees, in every field except `replaces_id`,
with an added notification of its id or with the record tracked before under its id;
(d) the entry of every other group and the chat map are unchanged. -/
theorem tracked_set_bookkeeping (env : Collaborators) (s : State)
    (u : NotificationGroupUpdate)
    (hwf : QMap.WF (activeNotificationsOf s u.notification_group_id))
    (hown : OwnId (activeNotificationsOf s u.notification_group_id)) :
    (OwnId (activeNotificationsOf (handleUpdateNotificationGroup env u s)
        u.notification_group_id) ∧
      QMap.WF (activeNotificationsOf (handleUpdateNotificationGroup env u s)
        u.notification_group_id)) ∧
    (∀ k, k ∈ QMap.keys (activeNotificationsOf (handleUpdateNotificationGroup env u s)
          u.notification_group_id) ↔
        (k ∈ QMap.keys (activeNotificationsOf s u.notification_group_id) ∧
          k ∉ u.removed_notification_ids) ∨
        k ∈ u.added_notifications.map (fun a => a.id)) ∧
    (∀ p ∈ activeNotificationsOf (handleUpdateNotificationGroup env u s)
          u.notification_group_id,
        (∃ a ∈ u.added_notifications, a.id = p.1 ∧ SameButHandle p.2 a) ∨
        (p.1 ∉ u.removed_notification_ids ∧
          ∃ q ∈ activeNotificationsOf s u.notification_group_id,
            q.1 = p.1 ∧ SameButHandle p.2 q.2)) ∧
    ((∀ g, g ≠ u.notification_group_id →
        (handleUpdateNotificationGroup env u s).notificationGroups.value g =
          s.notificationGroups.value g) ∧
      (handleUpdateNotificationGroup env u s).chatMap = s.chatMap) := by
  have hcases := processRemovals_fst_cases env s.chatMap u.chat_id
    u.removed_notification_ids (activeNotificationsOf s u.notification_group_id)
    s.requests hwf hown
  have hkeys : QMap.keys (activeAfterRemovals env u s) =
      QMap.keys (remaining u.removed_notification_ids
        (activeNotificationsOf s u.notification_group_id)) := by
    unfold activeAfterRemovals
    rcases hcases with h | ⟨h', h⟩ <;> rw [h]
    exact withHandle_keys _ _
  have hown' : OwnId (activeAfterRemovals env u s) := by
    unfold activeAfterRemovals
    rcases hcases with h | ⟨h', h⟩ <;> rw [h]
    · exact remaining_ownId hown
    · exact withHandle_ownId _ (remaining_ownId hown)
  have hwf' : QMap.WF (activeAfterRemovals env u s) := by
    unfold activeAfterRemovals
    rcases hcases with h | ⟨h', h⟩ <;> rw [h]
    · exact remaining_WF hwf
    · exact withHandle_WF _ (remaining_WF hwf)
  have hsrc : ∀ p ∈ activeAfterRemovals env u s,
      p.1 ∉ u.removed_notification_ids ∧
        ∃ q ∈ activeNotificationsOf s u.notification_group_id,
          q.1 = p.1 ∧ SameButHandle p.2 q.2 := by
    intro p hp
    have hk : p.1 ∈ QMap.keys (remaining u.removed_notification_ids
        (activeNotificationsOf s u.notification_group_id)) :=
      hkeys ▸ List.mem_map_of_mem Prod.fst hp
    refine ⟨(mem_keys_remaining.mp hk).2, ?_⟩
    unfold activeAfterRemovals at hp
    rcases hcases with h | ⟨h', h⟩ <;> rw [h] at hp
    · exact ⟨p, (List.mem_filter.mp hp).1, rfl, rfl, rfl, rfl⟩
    · simp only [withHandle, List.mem_map] at hp
      obtain ⟨q, hq, rfl⟩ := hp
      exact ⟨q, (List.mem_filter.mp hq).1, rfl, rfl, rfl, rfl⟩
  rw [handle_active]
  refine ⟨⟨addNotifications_ownId _ _ _ _ _ _ hown', addNotifications_WF _ _ _ _ _ _ hwf'⟩,
    ?_, ?_, ?_, rfl⟩
  · intro k
    rw [addNotifications_keys, hkeys, mem_keys_remaining]
  · intro p hp
    rcases addNotifications_source _ _ _ _ _ _ p hp with h | h
    · exact Or.inl h
    · exact Or.inr (hsrc p h)
  · intro g hg
    simp only [handleUpdateNotificationGroup]
    exact QMap.value_insert_ne _ _ hg

/-- C10 at the group `{A(5), B(5), C(5)}` with the update that removes `A` and adds
notification "4". -/
theorem tracked_set_bookkeeping_witness :
    (OwnId (activeNotificationsOf (handleUpdateNotificationGroup sampleEnv
        (sampleUpdate ["1"] [sampleNew])
        (sampleState [("1", sampleA), ("2", sampleB), ("3", sampleC)])) "g") ∧
      QMap.WF (activeNotificationsOf (handleUpdateNotificationGroup sampleEnv
        (sampleUpdate ["1"] [sampleNew])
        (sampleState [("1", sampleA), ("2", sampleB), ("3", sampleC)])) "g")) ∧
    (∀ k, k ∈ QMap.keys (activeNotificationsOf (handleUpdateNotificationGroup sampleEnv
          (sampleUpdate ["1"] [sampleNew])
          (sampleState [("1", sampleA), ("2", sampleB), ("3", sampleC)])) "g") ↔
        (k ∈ ["1", "2", "3"] ∧ k ∉ ["1"]) ∨ k ∈ ["4"]) ∧
    (∀ p ∈ activeNotificationsOf (handleUpdateNotificationGroup sampleEnv
          (sampleUpdate ["1"] [sampleNew])
          (sampleState [("1", sampleA), ("2", sampleB), ("3", sampleC)])) "g",
        (∃ a ∈ [sampleNew], a.id = p.1 ∧ SameButHandle p.2 a) ∨
        (p.1 ∉ ["1"] ∧
          ∃ q ∈ [("1", sampleA), ("2", sampleB), ("3", sampleC)],
            q.1 = p.1 ∧ SameButHandle p.2 q.2)) ∧
    ((∀ g, g ≠ "g" →
        (handleUpdateNotificationGroup sampleEnv (sampleUpdate ["1"] [sampleNew])
          (sampleState [("1", sampleA), ("2", sampleB), ("3", sampleC)])).notificationGroups.value
            g =
          (sampleState [("1", sampleA), ("2", sampleB), ("3", sampleC)]).notificationGroups.value
            g) ∧
      (handleUpdateNotificationGroup sampleEnv (sampleUpdate ["1"] [sampleNew])
        (sampleState [("1", sampleA), ("2", sampleB), ("3", sampleC)])).chatMap =
          sampleChats) :=
  tracked_set_bookkeeping sampleEnv
    (sampleState [("1", sampleA), ("2", sampleB), ("3", sampleC)])
    (sampleUpdate ["1"] [sampleNew]) (by decide) (by decide)

/-! ## C5: removals before additions -/

theorem publishedOf_append (e₁ e₂ : List Action) :
    publishedOf (e₁ ++ e₂) = publishedOf e₁ ++ publishedOf e₂ := by
  induction e₁ with
  | nil => rfl
  | cons x e₁ ih => cases x <;> simp [publishedOf, ih]

theorem publishedOf_specSent (env : Collaborators) (chat : Option ChatInformation)
    (chatId : String) (info : NotificationInformation)
    (others : QMap NotificationInformation) (requests : List Action) :
    publishedOf (specSent env chat chatId info others requests) =
      [specNotification env chat chatId info others] := by
  unfold specSent specCue
  split <;> simp [publishedOf]

theorem addNotifications_bodies (env : Collaborators) (chatMap : QMap ChatInformation)
    (chatId : String) (added : List NotificationInformation)
    (m : QMap NotificationInformation) (requests : List Action)
    (hfresh : ∀ a ∈ added, a.id ∉ QMap.keys m)
    (hnodup : (added.map (fun a => a.id)).Nodup) :
    ∃ e, (addNotifications env chatMap chatId added m requests).2 = requests ++ e ∧
      (publishedOf e).map (fun n => n.body) =
        (added.enumFrom m.size).map (specAddedBody env (chatMap.value chatId)) ∧
      (m = [] → ∀ n, (publishedOf e).head? = some n → n.replacesId = 0) := by
  induction added generalizing m requests with
  | nil => exact ⟨[], by simp [addNotifications], by simp [publishedOf], by simp [publishedOf]⟩
  | cons a more ih =>
    simp only [List.map_cons, List.nodup_cons] at hnodup
    have ha : a.id ∉ QMap.keys m := hfresh a (by simp)
    have hfresh' : ∀ b ∈ more, b.id ∉ QMap.keys (m.insert a.id
        { a with replaces_id := specHandle env (chatMap.value chatId) chatId a m requests }) := by
      intro b hb hmem
      rcases QMap.mem_keys_insert.mp hmem with h | h
      · exact hnodup.1 (h ▸ List.mem_map_of_mem (fun a => a.id) hb)
      · exact hfresh b (List.mem_cons_of_mem _ hb) h
    obtain ⟨e, h₁, h₂, _⟩ := ih
      (m.insert a.id
        { a with replaces_id := specHandle env (chatMap.value chatId) chatId a m requests })
      (requests ++ specSent env (chatMap.value chatId) chatId a m requests) hfresh' hnodup.2
    refine ⟨specSent env (chatMap.value chatId) chatId a m requests ++ e, ?_, ?_, ?_⟩
    · rw [addNotifications_cons, h₁, List.append_assoc]
    · rw [publishedOf_append, publishedOf_specSent, List.map_append, h₂]
      simp only [QMap.size, QMap.length_insert _ ha, List.enumFrom_cons, List.map_cons,
        List.singleton_append, List.cons.injEq, and_true]
      cases m with
      | nil => simp [specAddedBody, specNotification, specBody]
      | cons p t => simp [specAddedBody, specNotification, specBody, specAggregateBody]
    · intro hm n hn
      subst hm
      rw [publishedOf_append, publishedOf_specSent] at hn
      simp only [List.singleton_append, List.head?_cons, Option.some.injEq] at hn
      rw [← hn]
      rfl

/-- C5. The additions of an update are published against the records left by its
removals.  With added ids distinct and not among the `r` records tracked once the
removals are processed, the notifications published for the additions carry, in
order, the single-message body when `r + i - 1 = 0` and "(r + i) unread messages"
otherwise (`i = 1, 2, ...`); an addition published into an empty group requests no
replacement.  When every record was stored under its own id, the records tracked once
the removals are processed are those whose id is not in `removed_notification_ids`. -/
theorem additions_after_removals (env : Collaborators) (s : State)
    (u : NotificationGroupUpdate)
    (hfresh : ∀ a ∈ u.added_notifications,
      a.id ∉ QMap.keys (activeAfterRemovals env u s))
    (hnodup : (u.added_notifications.map (fun a => a.id)).Nodup) :
    ∃ e, (handleUpdateNotificationGroup env u s).requests =
        requestsBeforeAdditions env u s ++ e ∧
      (publishedOf e).map (fun n => n.body) =
        (u.added_notifications.enumFrom (activeAfterRemovals env u s).size).map
          (fun entry =>
            if entry.1 = 0 then specSingleBody env (s.chatMap.value u.chat_id) entry.2
            else toString (entry.1 + 1) ++ " unread messages") ∧
      (activeAfterRemovals env u s = [] →
        ∀ n, (publishedOf e).head? = some n → n.replacesId = 0) ∧
      (QMap.WF (activeNotificationsOf s u.notification_group_id) →
        OwnId (activeNotificationsOf s u.notification_group_id) →
        QMap.keys (activeAfterRemovals env u s) =
          QMap.keys (remaining u.removed_notification_ids
            (activeNotificationsOf s u.notification_group_id))) := by
  rw [handle_requests]
  obtain ⟨e, h₁, h₂, h₃⟩ := addNotifications_bodies env s.chatMap u.chat_id
    u.added_notifications (activeAfterRemovals env u s) (requestsBeforeAdditions env u s)
    hfresh hnodup
  refine ⟨e, h₁, h₂, h₃, ?_⟩
  intro hwf hown
  unfold activeAfterRemovals
  rcases processRemovals_fst_cases env s.chatMap u.chat_id u.removed_notification_ids
    (activeNotificationsOf s u.notification_group_id) s.requests hwf hown with h | ⟨h', h⟩ <;>
    rw [h]
  exact withHandle_keys _ _

/-- C5 on the group `{A(5)}`: the update that removes `A` and adds notifications "4"
and "5" publishes "4" in single-message form, without replacement request, and "5" as
"2 unread messages". -/
theorem additions_after_removals_witness :
    ∃ e, (handleUpdateNotificationGroup sampleEnv (sampleUpdate ["1"] [sampleNew, sampleNew2])
          (sampleState [("1", sampleA)])).requests =
        [Action.close 5, Action.mceCall DEACTIVATE PATTERN] ++ e ∧
      (publishedOf e).map (fun n => n.body) = ["Ann: new", "2 unread messages"] ∧
      ((([] : QMap NotificationInformation) = []) →
        ∀ n, (publishedOf e).head? = some n → n.replacesId = 0) ∧
      (QMap.WF (activeNotificationsOf (sampleState [("1", sampleA)]) "g") →
        OwnId (activeNotificationsOf (sampleState [("1", sampleA)]) "g") →
        QMap.keys ([] : QMap NotificationInformation) = []) :=
  additions_after_removals sampleEnv (sampleState [("1", sampleA)])
    (sampleUpdate ["1"] [sampleNew, sampleNew2]) (by decide) (by decide)

/-! ## C1: the shared handle -/

theorem updateExisting_nonzero (env : Collaborators) (chatMap : QMap ChatInformation)
    (chatId : String) (ids : List String) (m : QMap NotificationInformation)
    (requests : List Action) (hnz : ∀ log n, env.publish log n ≠ 0)
    (h : ∃ H, H ≠ 0 ∧ SharedHandle m H) :
    ∃ H, H ≠ 0 ∧ SharedHandle (updateExisting env chatMap chatId ids m requests).1 H := by
  by_cases hskip : ids = [] ∨ m = []
  · rw [updateExisting_skip _ _ _ _ _ _ hskip]
    exact h
  · simp only [not_or] at hskip
    obtain ⟨log, n, hs⟩ := updateExisting_shared env chatMap chatId ids m requests
      hskip.1 hskip.2
    exact ⟨_, hnz log n, hs⟩

theorem addNotifications_nonzero (env : Collaborators) (chatMap : QMap ChatInformation)
    (chatId : String) (added : List NotificationInformation)
    (m : QMap NotificationInformation) (requests : List Action)
    (hrep : ∀ log n, n.replacesId ≠ 0 → env.publish log n = n.replacesId)
    (hnz : ∀ log n, env.publish log n ≠ 0)
    (h : ∃ H, H ≠ 0 ∧ SharedHandle m H) :
    ∃ H, H ≠ 0 ∧ SharedHandle (addNotifications env chatMap chatId added m requests).1 H := by
  induction added generalizing m requests with
  | nil => simpa [addNotifications] using h
  | cons a more ih =>
    rw [addNotifications_cons]
    apply ih
    obtain ⟨H, hH, hs⟩ := h
    cases m with
    | nil =>
      refine ⟨specHandle env (chatMap.value chatId) chatId a [] requests, hnz _ _, ?_⟩
      intro p hp
      rcases QMap.mem_insert hp with h₁ | h₁
      · rw [h₁]
      · simp at h₁
    | cons q t =>
      have hq : q.2.replaces_id = H := hs q (by simp)
      have hh : specHandle env (chatMap.value chatId) chatId a (q :: t) requests = H := by
        unfold specHandle
        rw [hrep]
        · exact hq
        · show q.2.replaces_id ≠ 0
          rw [hq]
          exact hH
      refine ⟨H, hH, ?_⟩
      intro p hp
      rcases QMap.mem_insert hp with h₁ | h₁
      · rw [h₁]
        exact hh
      · exact hs p h₁

/-- C1, amended.  Assume that a publish asking to replace a handle `h ≠ 0` returns `h`
and that the platform never reports the handle 0.  When all tracked records of a group
carry one and the same handle `H ≠ 0`, then after any update to that group all its
tracked records again carry one single handle, which is not 0. -/
theorem shared_handle_preserved (env : Collaborators) (s : State)
    (u : NotificationGroupUpdate) (H : Nat)
    (hrep : ∀ log n, n.replacesId ≠ 0 → env.publish log n = n.replacesId)
    (hnz : ∀ log n, env.publish log n ≠ 0)
    (hH : H ≠ 0)
    (hshared : SharedHandle (activeNotificationsOf s u.notification_group_id) H) :
    ∃ H', H' ≠ 0 ∧
      SharedHandle
        (activeNotificationsOf (handleUpdateNotificationGroup env u s) u.notification_group_id)
        H' := by
  rw [handle_active]
  apply addNotifications_nonzero _ _ _ _ _ _ hrep hnz
  unfold activeAfterRemovals processRemovals
  apply updateExisting_nonzero _ _ _ _ _ _ hnz
  rw [removeNotifications_fst]
  exact ⟨H, hH, remaining_shared hshared⟩

/-- C1 amended, at the group `{A(5), B(5), C(5)}` with the update that removes `A` and
adds notifications "4" and "5". -/
theorem shared_handle_preserved_witness :
    ∃ H', H' ≠ 0 ∧
      SharedHandle
        (activeNotificationsOf (handleUpdateNotificationGroup sampleEnv
          (sampleUpdate ["1"] [sampleNew, sampleNew2])
          (sampleState [("1", sampleA), ("2", sampleB), ("3", sampleC)])) "g") H' :=
  shared_handle_preserved sampleEnv
    (sampleState [("1", sampleA), ("2", sampleB), ("3", sampleC)])
    (sampleUpdate ["1"] [sampleNew, sampleNew2]) 5
    (by intro log n h; simp [sampleEnv, samplePublish, h])
    (by
      intro log n
      simp only [sampleEnv, samplePublish]
      split <;> omega)
    (by decide) (by decide)

/-- C1 as stated fails where the handle 0 occurs.  Both platforms return `h` for a
publish that asks to replace `h ≠ 0`.  First: the group `{A(0)}`, whose one record is
stored under its id and carries handle 0, gets notification "4" added; the publish
carries `replacesId = 0`, the platform assigns the fresh handle 100, and the group
tracks handles 0 and 100.  Second: the manager in its initial state gets notifications
"4" and "5" added in one update; the platform reports 0 for the first publish and 1
for the second, and the group tracks handles 0 and 1. -/
theorem shared_handle_counterexample :
    ((∀ log n, n.replacesId ≠ 0 → sampleEnv.publish log n = n.replacesId) ∧
      OwnId (activeNotificationsOf
        (sampleState [("1", { sampleA with replaces_id := 0 })]) "g") ∧
      SharedHandle (activeNotificationsOf
        (sampleState [("1", { sampleA with replaces_id := 0 })]) "g") 0 ∧
      (activeNotificationsOf (handleUpdateNotificationGroup sampleEnv
          (sampleUpdate [] [sampleNew])
          (sampleState [("1", { sampleA with replaces_id := 0 })])) "g").map
        (fun p => p.2.replaces_id) = [0, 100] ∧
      ¬ ∃ H', SharedHandle (activeNotificationsOf (handleUpdateNotificationGroup sampleEnv
          (sampleUpdate [] [sampleNew])
          (sampleState [("1", { sampleA with replaces_id := 0 })])) "g") H') ∧
    ((∀ log n, n.replacesId ≠ 0 → countingEnv.publish log n = n.replacesId) ∧
      activeNotificationsOf ({} : State) "g" = [] ∧
      (activeNotificationsOf (handleUpdateNotificationGroup countingEnv
          (sampleUpdate [] [sampleNew, sampleNew2]) {}) "g").map
        (fun p => p.2.replaces_id) = [0, 1] ∧
      ¬ ∃ H', SharedHandle (activeNotificationsOf (handleUpdateNotificationGroup countingEnv
          (sampleUpdate [] [sampleNew, sampleNew2]) {}) "g") H') := by
  refine ⟨⟨?_, by decide, by decide, by decide, ?_⟩, ⟨?_, by decide, by decide, ?_⟩⟩
  · intro log n h
    simp [sampleEnv, samplePublish, h]
  · rintro ⟨H', h⟩
    have h₁ : (0 : Nat) = H' :=
      h ("1", { sampleA with replaces_id := 0 }) (by decide)
    have h₂ : (100 : Nat) = H' :=
      h ("4", { sampleNew with replaces_id := 100 }) (by decide)
    omega
  · intro log n h
    simp [countingEnv, countingPublish, h]
  · rintro ⟨H', h⟩
    have h₁ : (0 : Nat) = H' :=
      h ("4", { sampleNew with replaces_id := 0 }) (by decide)
    have h₂ : (1 : Nat) = H' :=
      h ("5", { sampleNew2 with replaces_id := 1 }) (by decide)
    omega

/-! ## C3: the publish of the re-aggregation step -/

/-- C4 on the group `{A(5)}`: an update whose only removed id, "999", is not tracked
and which adds nothing makes the handler publish `A` again, with an audio cue, and
replace its handle 5 by the fresh handle 101.  The guard of the re-aggregation block
tests the list of removed ids, not whether a record was removed. -/
theorem unknown_removal_republishes :
    "999" ∉ QMap.keys (activeNotificationsOf (sampleState [("1", sampleA)]) "g") ∧
    (handleUpdateNotificationGroup sampleEnv (sampleUpdate ["999"] [])
        (sampleState [("1", sampleA)])).requests =
      [Action.play "chat",
        Action.publish (specNotification sampleEnv (sampleChats.value "c") "c" sampleA []) 101,
        Action.mceCall ACTIVATE PATTERN] ∧
    (publishedOf (handleUpdateNotificationGroup sampleEnv (sampleUpdate ["999"] [])
        (sampleState [("1", sampleA)])).requests).map (fun n => n.body) = ["Ann: hi"] ∧
    activeNotificationsOf (handleUpdateNotificationGroup sampleEnv (sampleUpdate ["999"] [])
        (sampleState [("1", sampleA)])) "g" = [("1", { sampleA with replaces_id := 101 })] ∧
    activeNotificationsOf (sampleState [("1", sampleA)]) "g" = [("1", sampleA)] := by
  decide

end NotificationManager
